import Mathlib

/-!
# Verification of the vulcanizedb transformer pipeline

Shallow embedding of

* `pkg/transformers/drip_file/repo/repository.go` (`DripFileRepoRepository`),
* `pkg/transformers/frob/transformer.go` (`FrobTransformer.Execute`),
* `pkg/transformers/pit_file/ilk/converter.go` (`PitFileIlkConverter`),

with the relational store modelled as three tables behind a connection whose
calls may fail, and of `GetStorageAt` of the query backend, written from the
specification and exercised by `pkg/graphql/graphql_test.go`.
-/

set_option autoImplicit false

/-! ## Errors and the relational store -/

/-- A Go `error` value, identified by its message. `Option Error` is the Go
return type `error`, `none` being `nil`. -/
abbrev Error := String

/-- The bytes of `json.Marshal(ethLog)` stored in the `raw_log` column. -/
abbrev RawLog := List Nat

/-- A row of `headers`, with the columns the queries of this package read. -/
structure HeaderRow where
  id : Int
  block_number : Int
  eth_node_fingerprint : String
  deriving DecidableEq, Repr

/-- A row of `public.checked_headers`, with the columns the statements of this
package write. -/
structure CheckedHeaderRow where
  header_id : Int
  drip_file_repo_checked : Bool
  deriving DecidableEq, Repr

/-- A value of the SQL type `NUMERIC`, given as the text it is the cast of
(`$3::NUMERIC`). The cast is the database's; a text that is no number makes
the statement fail, which is a fault of that call. -/
structure Numeric where
  ofText ::
  text : String
  deriving DecidableEq, Repr

/-- A row of `maker.drip_file_repo`. -/
structure DripFileRepoRow where
  header_id : Int
  what : String
  data : Numeric
  tx_idx : Int
  raw_log : RawLog
  deriving DecidableEq, Repr

/-- The Go struct `DripFileRepoModel`, with the fields `Create` reads.
`TransactionIndex` is a Go `uint`, a number below `2 ^ 64`. -/
structure DripFileRepoModel where
  What : String
  Data : String
  TransactionIndex : Nat
  Raw : RawLog
  deriving DecidableEq, Repr

/-- The conversion `int64(v)` that `database/sql` applies to a statement
argument of the Go type `uint`: the 64 bits of `v` read as a signed number, so
a value from `2 ^ 63` up comes out negative. -/
def int64OfUint (v : Nat) : Int :=
  if v % 2 ^ 64 < 2 ^ 63 then ((v % 2 ^ 64 : Nat) : Int)
  else ((v % 2 ^ 64 : Nat) : Int) - 2 ^ 64

/-- The persisted state: the contents of the three tables, each as the list of
its rows in the order in which the engine yields them to a query. SQL fixes no
such order without an `ORDER BY`, so no order of a list is assumed. -/
structure Tables where
  headers : List HeaderRow
  checked_headers : List CheckedHeaderRow
  drip_file_repo : List DripFileRepoRow
  deriving DecidableEq, Repr

/-- The two write statements the repository issues. -/
inductive Stmt where
  /-- The statement `INSERT into maker.drip_file_repo (header_id, what, data, tx_idx, raw_log)
  VALUES($1, $2, $3::NUMERIC, $4, $5)`. -/
  | insertDripFileRepo (row : DripFileRepoRow)
  /-- The statement `INSERT INTO public.checked_headers (header_id, drip_file_repo_checked)
  VALUES ($1, $2) ON CONFLICT (header_id) DO UPDATE SET drip_file_repo_checked = $2`. -/
  | upsertChecked (headerID : Int) (flag : Bool)
  deriving DecidableEq, Repr

/-- The upsert on `checked_headers`: rows whose `header_id` conflicts get the
new flag, and a row is inserted when there is no conflict. -/
def upsertCheckedRows (headerID : Int) (flag : Bool) (rows : List CheckedHeaderRow) :
    List CheckedHeaderRow :=
  if rows.any (fun r => r.header_id == headerID) then
    rows.map (fun r =>
      if r.header_id = headerID then { r with drip_file_repo_checked := flag } else r)
  else
    rows ++ [{ header_id := headerID, drip_file_repo_checked := flag }]

/-- The effect of a statement that succeeds on the tables it runs against. -/
def Stmt.apply : Stmt → Tables → Tables
  | .insertDripFileRepo row, t => { t with drip_file_repo := t.drip_file_repo ++ [row] }
  | .upsertChecked headerID flag, t =>
      { t with checked_headers := upsertCheckedRows headerID flag t.checked_headers }

/-- The connection `*postgres.DB`. `tables` is the committed state, `nodeID` is
`db.Node.ID`, and `faults` fixes the outcome of the calls still to be made on
the connection, one entry per call: `some err` makes that call fail with `err`;
a call beyond the end of the list succeeds. -/
structure DB where
  tables : Tables
  nodeID : String
  faults : List (Option Error)
  deriving DecidableEq, Repr

/-- An open transaction `*sql.Tx`: the working copy of the tables its
statements have written so far, invisible until `Commit`. -/
structure Tx where
  work : Tables
  deriving DecidableEq, Repr

/-- Take the outcome of the next call on the connection. -/
def DB.nextFault (db : DB) : Option Error × DB :=
  match db.faults with
  | [] => (none, db)
  | f :: rest => (f, { db with faults := rest })

/-- The call `db.Begin()`. -/
def DB.Begin (db : DB) : Except Error Tx × DB :=
  match db.nextFault with
  | (some err, db) => (.error err, db)
  | (none, db) => (.ok { work := db.tables }, db)

/-- The call `tx.Exec(stmt)`: a failed statement writes nothing. -/
def Tx.Exec (tx : Tx) (stmt : Stmt) (db : DB) : Option Error × Tx × DB :=
  match db.nextFault with
  | (some err, db) => (some err, tx, db)
  | (none, db) => (none, { work := stmt.apply tx.work }, db)

/-- The call `tx.Rollback()`: the working copy is dropped. The source ignores
its result. -/
def Tx.Rollback (_tx : Tx) (db : DB) : DB :=
  db.nextFault.2

/-- The call `tx.Commit()`: on success the working copy becomes the committed
state, on failure nothing of it does. -/
def Tx.Commit (tx : Tx) (db : DB) : Option Error × DB :=
  match db.nextFault with
  | (some err, db) => (some err, db)
  | (none, db) => (none, { db with tables := tx.work })

/-- The call `db.Exec(stmt)` outside a transaction (autocommit). -/
def DB.Exec (db : DB) (stmt : Stmt) : Option Error × DB :=
  match db.nextFault with
  | (some err, db) => (some err, db)
  | (none, db) => (none, { db with tables := stmt.apply db.tables })

/-! ## `core.Header` and the `MissingHeaders` query -/

namespace core

/-- The Go struct `core.Header`, with the fields the query selects. -/
structure Header where
  Id : Int
  BlockNumber : Int
  deriving DecidableEq, Repr

end core

/-- The rows of `headers LEFT JOIN checked_headers on headers.id = header_id`:
each header is paired with every marker row of its id, or once with no marker
(`NULL` columns) when it has none. -/
def leftJoinChecked (t : Tables) : List (HeaderRow × Option CheckedHeaderRow) :=
  t.headers.flatMap (fun h =>
    match t.checked_headers.filter (fun c => c.header_id = h.id) with
    | [] => [(h, none)]
    | cs => cs.map (fun c => (h, some c)))

/-- The `WHERE` clause of `MissingHeaders` on a joined row. -/
def missingWhere (startingBlockNumber endingBlockNumber : Int) (nodeID : String)
    (row : HeaderRow × Option CheckedHeaderRow) : Bool :=
  (match row.2 with
    | none => true
    | some c => c.drip_file_repo_checked == false)
  && decide (row.1.block_number ≥ startingBlockNumber)
  && decide (row.1.block_number ≤ endingBlockNumber)
  && decide (row.1.eth_node_fingerprint = nodeID)

/-- The `SELECT headers.id, headers.block_number ...` of `MissingHeaders`,
evaluated on the committed tables. There is no `ORDER BY`: the rows come out
in the order in which the engine yields them, here the order of the lists. -/
def missingHeadersQuery (t : Tables) (startingBlockNumber endingBlockNumber : Int)
    (nodeID : String) : List core.Header :=
  ((leftJoinChecked t).filter (missingWhere startingBlockNumber endingBlockNumber nodeID)).map
    (fun row => { Id := row.1.id, BlockNumber := row.1.block_number })

/-- The call `db.Select(&result, query, args...)` for the `MissingHeaders` query. -/
def DB.SelectMissingHeaders (db : DB) (startingBlockNumber endingBlockNumber : Int) :
    Except Error (List core.Header) × DB :=
  match db.nextFault with
  | (some err, db) => (.error err, db)
  | (none, db) =>
      (.ok (missingHeadersQuery db.tables startingBlockNumber endingBlockNumber db.nodeID), db)

/-! ## `DripFileRepoRepository` -/

namespace DripFileRepoRepository

/-- The row `Create` inserts for a model: the arguments `headerID, model.What,
model.Data, model.TransactionIndex, model.Raw` of the `INSERT`, with
`model.Data` cast to `NUMERIC` by the statement and the `uint`
`model.TransactionIndex` converted to `int64` by `database/sql`. -/
def rowOf (headerID : Int) (model : DripFileRepoModel) : DripFileRepoRow :=
  { header_id := headerID, what := model.What, data := Numeric.ofText model.Data,
    tx_idx := int64OfUint model.TransactionIndex, raw_log := model.Raw }

/-- The `for _, model := range models` loop of `Create`: the first insert that
fails rolls the transaction back and returns its error. -/
def insertModels (headerID : Int) :
    List DripFileRepoModel → Tx → DB → Option Error × Tx × DB
  | [], tx, db => (none, tx, db)
  | model :: rest, tx, db =>
      match tx.Exec (.insertDripFileRepo (rowOf headerID model)) db with
      | (some err, tx, db) => (some err, tx, tx.Rollback db)
      | (none, tx, db) => insertModels headerID rest tx db

/-- The method `DripFileRepoRepository.Create`. -/
def Create (db : DB) (headerID : Int) (models : List DripFileRepoModel) :
    Option Error × DB :=
  match db.Begin with
  | (.error err, db) => (some err, db)
  | (.ok tx, db) =>
      match insertModels headerID models tx db with
      | (some err, _, db) => (some err, db)
      | (none, tx, db) =>
          match tx.Exec (.upsertChecked headerID true) db with
          | (some err, tx, db) => (some err, tx.Rollback db)
          | (none, tx, db) => tx.Commit db

/-- The method `DripFileRepoRepository.MarkHeaderChecked`. -/
def MarkHeaderChecked (db : DB) (headerID : Int) : Option Error × DB :=
  db.Exec (.upsertChecked headerID true)

/-- The method `DripFileRepoRepository.MissingHeaders`. -/
def MissingHeaders (db : DB) (startingBlockNumber endingBlockNumber : Int) :
    Except Error (List core.Header) × DB :=
  db.SelectMissingHeaders startingBlockNumber endingBlockNumber

end DripFileRepoRepository

/-- A header is checked in `t`: it has a marker row, and every marker row of
its id has `drip_file_repo_checked` true. -/
def headerChecked (t : Tables) (headerID : Int) : Prop :=
  (∃ c ∈ t.checked_headers, c.header_id = headerID) ∧
  ∀ c ∈ t.checked_headers, c.header_id = headerID → c.drip_file_repo_checked = true

instance (t : Tables) (headerID : Int) : Decidable (headerChecked t headerID) := by
  unfold headerChecked; infer_instance

/-! ## `FrobTransformer` -/

namespace shared

/-- The Go struct `shared.TransformerConfig`, with the fields `Execute` reads. -/
structure TransformerConfig where
  StartingBlockNumber : Int
  EndingBlockNumber : Int
  deriving DecidableEq, Repr

end shared

/-- The or-nil error of a Go `(value, error)` result. -/
def errOf {α : Type} : Except Error α → Option Error
  | .error err => some err
  | .ok _ => none

/-- The Go interface `Repository`, over the state `W` of the world outside the
transformer. -/
structure Repository (W Model : Type) where
  Create : Int → List Model → W → Option Error × W
  MarkHeaderChecked : Int → W → Option Error × W
  MissingHeaders : Int → Int → W → Except Error (List core.Header) × W

/-- The Go interface `shared.LogFetcher`; the contract addresses and the topic
are the fixed `FrobConfig.ContractAddresses` and `shared.FrobSignature`. -/
structure LogFetcher (W Log : Type) where
  FetchLogs : Int → W → Except Error (List Log) × W

/-- The Go interface `Converter`; the ABI is the fixed `FrobConfig.ContractAbi`. -/
structure Converter (W Log Entity Model : Type) where
  ToEntities : List Log → W → Except Error (List Entity) × W
  ToModels : List Entity → W → Except Error (List Model) × W

/-- The Go struct `FrobTransformer`. -/
structure FrobTransformer (W Log Entity Model : Type) where
  Config : shared.TransformerConfig
  Converter : Converter W Log Entity Model
  Fetcher : LogFetcher W Log
  Repository : Repository W Model

/-- A call `Execute` makes to a collaborator, with its arguments. -/
inductive Call (Log Entity Model : Type) where
  | MissingHeaders (startingBlockNumber endingBlockNumber : Int)
  | FetchLogs (blockNumber : Int)
  | MarkHeaderChecked (headerID : Int)
  | ToEntities (logs : List Log)
  | ToModels (entities : List Entity)
  | Create (headerID : Int) (models : List Model)
  deriving DecidableEq, Repr

/-- A collaborator call together with the error it returned. -/
structure Event (Log Entity Model : Type) where
  call : Call Log Entity Model
  err : Option Error
  deriving DecidableEq, Repr

/-- The state of a run of `Execute`: the world, and the collaborator calls made
so far, oldest first. -/
structure Run (W Log Entity Model : Type) where
  world : W
  trace : List (Event Log Entity Model)

namespace FrobTransformer

variable {W Log Entity Model : Type}

/-- The call `transformer.Repository.MissingHeaders(...)`, recorded. -/
def callMissingHeaders (transformer : FrobTransformer W Log Entity Model)
    (startingBlockNumber endingBlockNumber : Int) (r : Run W Log Entity Model) :
    Except Error (List core.Header) × Run W Log Entity Model :=
  let res := transformer.Repository.MissingHeaders startingBlockNumber endingBlockNumber r.world
  (res.1, { world := res.2,
            trace := r.trace ++
              [{ call := .MissingHeaders startingBlockNumber endingBlockNumber,
                 err := errOf res.1 }] })

/-- The call `transformer.Fetcher.FetchLogs(...)`, recorded. -/
def callFetchLogs (transformer : FrobTransformer W Log Entity Model)
    (blockNumber : Int) (r : Run W Log Entity Model) :
    Except Error (List Log) × Run W Log Entity Model :=
  let res := transformer.Fetcher.FetchLogs blockNumber r.world
  (res.1, { world := res.2,
            trace := r.trace ++ [{ call := .FetchLogs blockNumber, err := errOf res.1 }] })

/-- The call `transformer.Repository.MarkHeaderChecked(...)`, recorded. -/
def callMarkHeaderChecked (transformer : FrobTransformer W Log Entity Model)
    (headerID : Int) (r : Run W Log Entity Model) :
    Option Error × Run W Log Entity Model :=
  let res := transformer.Repository.MarkHeaderChecked headerID r.world
  (res.1, { world := res.2,
            trace := r.trace ++ [{ call := .MarkHeaderChecked headerID, err := res.1 }] })

/-- The call `transformer.Converter.ToEntities(...)`, recorded. -/
def callToEntities (transformer : FrobTransformer W Log Entity Model)
    (logs : List Log) (r : Run W Log Entity Model) :
    Except Error (List Entity) × Run W Log Entity Model :=
  let res := transformer.Converter.ToEntities logs r.world
  (res.1, { world := res.2,
            trace := r.trace ++ [{ call := .ToEntities logs, err := errOf res.1 }] })

/-- The call `transformer.Converter.ToModels(...)`, recorded. -/
def callToModels (transformer : FrobTransformer W Log Entity Model)
    (entities : List Entity) (r : Run W Log Entity Model) :
    Except Error (List Model) × Run W Log Entity Model :=
  let res := transformer.Converter.ToModels entities r.world
  (res.1, { world := res.2,
            trace := r.trace ++ [{ call := .ToModels entities, err := errOf res.1 }] })

/-- The call `transformer.Repository.Create(...)`, recorded. -/
def callCreate (transformer : FrobTransformer W Log Entity Model)
    (headerID : Int) (models : List Model) (r : Run W Log Entity Model) :
    Option Error × Run W Log Entity Model :=
  let res := transformer.Repository.Create headerID models r.world
  (res.1, { world := res.2,
            trace := r.trace ++ [{ call := .Create headerID models, err := res.1 }] })

/-- The body of the `for _, header := range missingHeaders` loop of `Execute`.
`some err` is `return err`; `none` is reaching the end of the body. After
`MarkHeaderChecked` succeeds the body goes on to `ToEntities`, as in the source,
which has no `continue` there. -/
def executeHeader (transformer : FrobTransformer W Log Entity Model)
    (header : core.Header) (r : Run W Log Entity Model) :
    Option Error × Run W Log Entity Model :=
  match transformer.callFetchLogs header.BlockNumber r with
  | (.error err, r) => (some err, r)
  | (.ok matchingLogs, r) =>
      match (if matchingLogs.length < 1 then transformer.callMarkHeaderChecked header.Id r
             else (none, r)) with
      | (some err, r) => (some err, r)
      | (none, r) =>
          match transformer.callToEntities matchingLogs r with
          | (.error err, r) => (some err, r)
          | (.ok entities, r) =>
              match transformer.callToModels entities r with
              | (.error err, r) => (some err, r)
              | (.ok models, r) =>
                  match transformer.callCreate header.Id models r with
                  | (some err, r) => (some err, r)
                  | (none, r) => (none, r)

/-- The loop of `Execute` over the missing headers, in the order of the list. -/
def executeHeaders (transformer : FrobTransformer W Log Entity Model) :
    List core.Header → Run W Log Entity Model → Option Error × Run W Log Entity Model
  | [], r => (none, r)
  | header :: rest, r =>
      match transformer.executeHeader header r with
      | (some err, r) => (some err, r)
      | (none, r) => executeHeaders transformer rest r

/-- The method `FrobTransformer.Execute`, started in world `w`: the returned error, the
world it leaves, and the collaborator calls it made. -/
def Execute (transformer : FrobTransformer W Log Entity Model) (w : W) :
    Option Error × Run W Log Entity Model :=
  match transformer.callMissingHeaders transformer.Config.StartingBlockNumber
      transformer.Config.EndingBlockNumber { world := w, trace := [] } with
  | (.error err, r) => (some err, r)
  | (.ok missingHeaders, r) => transformer.executeHeaders missingHeaders r

end FrobTransformer

/-! ### A transformer over the relational store

The world is the connection together with the state `X` of the fetcher and
the converter, which cannot reach the connection. -/

/-- A repository that does on the connection what `DripFileRepoRepository`
does. -/
def storeRepository (X : Type) : Repository (DB × X) DripFileRepoModel where
  Create headerID models w :=
    ((DripFileRepoRepository.Create w.1 headerID models).1,
     ((DripFileRepoRepository.Create w.1 headerID models).2, w.2))
  MarkHeaderChecked headerID w :=
    ((DripFileRepoRepository.MarkHeaderChecked w.1 headerID).1,
     ((DripFileRepoRepository.MarkHeaderChecked w.1 headerID).2, w.2))
  MissingHeaders startingBlockNumber endingBlockNumber w :=
    ((DripFileRepoRepository.MissingHeaders w.1 startingBlockNumber endingBlockNumber).1,
     ((DripFileRepoRepository.MissingHeaders w.1 startingBlockNumber endingBlockNumber).2, w.2))

/-- The fetcher and the converter of a transformer, as arbitrary operations on
their own state `X`. -/
structure External (X Log Entity : Type) where
  FetchLogs : Int → X → Except Error (List Log) × X
  ToEntities : List Log → X → Except Error (List Entity) × X
  ToModels : List Entity → X → Except Error (List DripFileRepoModel) × X

/-- The transformer made of the store repository and of an external fetcher
and converter. -/
def storeTransformer {X Log Entity : Type} (config : shared.TransformerConfig)
    (ext : External X Log Entity) : FrobTransformer (DB × X) Log Entity DripFileRepoModel where
  Config := config
  Converter :=
    { ToEntities := fun logs w => ((ext.ToEntities logs w.2).1, (w.1, (ext.ToEntities logs w.2).2))
      ToModels := fun es w => ((ext.ToModels es w.2).1, (w.1, (ext.ToModels es w.2).2)) }
  Fetcher :=
    { FetchLogs := fun bn w => ((ext.FetchLogs bn w.2).1, (w.1, (ext.FetchLogs bn w.2).2)) }
  Repository := storeRepository X

/-- The block number of a `FetchLogs` call. -/
def fetchedBlock {Log Entity Model : Type} (ev : Event Log Entity Model) : Option Int :=
  match ev.call with
  | .FetchLogs blockNumber => some blockNumber
  | _ => none

/-- The block numbers `Execute` passed to `FetchLogs`, in call order. -/
def fetchedBlocks {Log Entity Model : Type} (trace : List (Event Log Entity Model)) :
    List Int :=
  trace.filterMap fetchedBlock

/-- A step of the store that keeps the node id and the headers and unchecks no
header. -/
def StoreStep (db db' : DB) : Prop :=
  db'.nodeID = db.nodeID ∧ db'.tables.headers = db.tables.headers ∧
  ∀ id, headerChecked db.tables id → headerChecked db'.tables id

/-- A result of (part of) a run in which every call before the last succeeded
and the returned error is the one of the last call. -/
def FirstErrorLast {W Log Entity Model : Type}
    (res : Option Error × Run W Log Entity Model) : Prop :=
  (res.1 = none ∧ ∀ ev ∈ res.2.trace, ev.err = none) ∨
  (∃ err pre last, res.1 = some err ∧ res.2.trace = pre ++ [last] ∧ last.err = some err ∧
    ∀ ev ∈ pre, ev.err = none)


/-! ## `PitFileIlkConverter`

Go strings made from raw bytes (`Ilk`, `What`) are byte lists; Go strings that
hold decimal text (`Data`) are `String`s. -/

namespace types

/-- The go-ethereum struct `types.Log`, with the fields the converter reads.
A `common.Hash` topic is the list of its bytes. -/
structure Log where
  Topics : List (List Nat)
  Data : List Nat
  Index : Nat
  TxIndex : Nat
  deriving DecidableEq, Repr

end types

/-- The Go struct `PitFileIlkModel`. -/
structure PitFileIlkModel where
  Ilk : List Nat
  What : List Nat
  Data : String
  LogIndex : Nat
  TransactionIndex : Nat
  Raw : RawLog
  deriving DecidableEq, Repr

/-- What the converter uses from outside its file: the constant
`constants.DataItemLength`, the functions `shared.ConvertToRay` and
`shared.ConvertToWad`, and `json.Marshal` on a `types.Log`. -/
structure PitFileDeps where
  DataItemLength : Int
  ConvertToRay : String → String
  ConvertToWad : String → String
  jsonMarshal : types.Log → Except Error RawLog

/-- The bytes of the Go string literal `"spot"`. -/
def spot : List Nat := [115, 112, 111, 116]

/-- The bytes of the Go string literal `"line"`. -/
def line : List Nat := [108, 105, 110, 101]

/-- The call `bytes.Trim(b, "\x00")`: the leading and the trailing NUL bytes
are cut off. -/
def trimNul (b : List Nat) : List Nat :=
  (b.dropWhile (fun x => x == 0)).rdropWhile (fun x => x == 0)

/-- The call `big.NewInt(0).SetBytes(buf)`: `buf` read as a big-endian
unsigned integer. -/
def SetBytes (buf : List Nat) : Nat :=
  buf.foldl (fun acc b => acc * 256 + b) 0

/-- The slice expression `a[low:]`; `none` is the run-time panic for a bound
out of range. -/
def sliceFrom (a : List Nat) (low : Int) : Option (List Nat) :=
  if 0 ≤ low ∧ low ≤ (a.length : Int) then some (a.drop low.toNat) else none

namespace PitFileIlkConverter

/-- The function `verifyLog`. -/
def verifyLog (deps : PitFileDeps) (log : types.Log) : Option Error :=
  if log.Topics.length < 4 then
    some "log missing topics"
  else if (log.Data.length : Int) < deps.DataItemLength then
    some "log missing data"
  else
    none

/-- The function `getData`, returning the Go pair `(string, error)`. -/
def getData (deps : PitFileDeps) (dataBytes : List Nat) (what : List Nat) :
    String × Option Error :=
  let n := toString (SetBytes dataBytes)
  if what = spot then
    (deps.ConvertToRay n, none)
  else if what = line then
    (deps.ConvertToWad n, none)
  else
    ("", some "unexpected payload for 'what'")

/-- The `for _, ethLog := range ethLogs` loop of `ToModels`, with the value of
`models` so far. The result is the Go pair `(models, error)`, a `nil` slice
being `[]`; `none` is a run-time panic. -/
def toModelsLoop (deps : PitFileDeps) :
    List types.Log → List PitFileIlkModel → Option (List PitFileIlkModel × Option Error)
  | [], models => some (models, none)
  | ethLog :: rest, models =>
      match verifyLog deps ethLog with
      | some err => some ([], some err)
      | none =>
          match ethLog.Topics[2]? with
          | none => none
          | some topic2 =>
              match ethLog.Topics[3]? with
              | none => none
              | some topic3 =>
                  let ilk := trimNul topic2
                  let what := trimNul topic3
                  match sliceFrom ethLog.Data ((ethLog.Data.length : Int) - deps.DataItemLength) with
                  | none => none
                  | some dataBytes =>
                      match getData deps dataBytes what with
                      | (_, some err) => some ([], some err)
                      | (data, none) =>
                          match deps.jsonMarshal ethLog with
                          | .error err => some ([], some err)
                          | .ok raw =>
                              toModelsLoop deps rest
                                (models ++ [{ Ilk := ilk, What := what, Data := data,
                                              LogIndex := ethLog.Index,
                                              TransactionIndex := ethLog.TxIndex,
                                              Raw := raw }])

/-- The method `PitFileIlkConverter.ToModels`. -/
def ToModels (deps : PitFileDeps) (ethLogs : List types.Log) :
    Option (List PitFileIlkModel × Option Error) :=
  toModelsLoop deps ethLogs []

end PitFileIlkConverter

/-- The value of a byte string read as a big-endian unsigned integer: the
first byte is the most significant. -/
def bigEndianValue : List Nat → Nat
  | [] => 0
  | b :: rest => b * 256 ^ rest.length + bigEndianValue rest

/-- The byte string `s` is `t` with its leading and trailing NUL bytes removed:
`t` is `s` between two runs of NUL bytes, and `s` neither starts nor ends with
a NUL byte. -/
def NulTrimmed (t s : List Nat) : Prop :=
  ∃ pre post, t = pre ++ s ++ post ∧ (∀ b ∈ pre, b = 0) ∧ (∀ b ∈ post, b = 0) ∧
    s.head? ≠ some 0 ∧ s.getLast? ≠ some 0

/-- A log the converter does not accept: fewer than 4 topics, or data shorter
than `DataItemLength` bytes, or a fourth topic that, NUL-trimmed, is neither
`"spot"` nor `"line"`. -/
def Rejected (deps : PitFileDeps) (log : types.Log) : Prop :=
  log.Topics.length < 4 ∨ (log.Data.length : Int) < deps.DataItemLength ∨
  ∃ topic3, log.Topics[3]? = some topic3 ∧ trimNul topic3 ≠ spot ∧ trimNul topic3 ≠ line

/-- The model `m` is the decoding of `log`: `Ilk` and `What` are the third and
fourth topics without their leading and trailing NUL bytes, `Data` is the
big-endian unsigned integer in the last `DataItemLength` bytes of the data,
in decimal, converted with `ConvertToRay` for `"spot"` and with
`ConvertToWad` for `"line"`, the indexes are those of the log and `Raw` is
its JSON encoding. -/
def DecodedFrom (deps : PitFileDeps) (log : types.Log) (m : PitFileIlkModel) : Prop :=
  ∃ topic2 topic3 payload,
    log.Topics[2]? = some topic2 ∧ log.Topics[3]? = some topic3 ∧
    NulTrimmed topic2 m.Ilk ∧ NulTrimmed topic3 m.What ∧
    payload <:+ log.Data ∧ (payload.length : Int) = deps.DataItemLength ∧
    ((m.What = spot ∧ m.Data = deps.ConvertToRay (toString (bigEndianValue payload))) ∨
     (m.What = line ∧ m.Data = deps.ConvertToWad (toString (bigEndianValue payload)))) ∧
    m.LogIndex = log.Index ∧ m.TransactionIndex = log.TxIndex ∧
    deps.jsonMarshal log = .ok m.Raw

/-! ## `QueryBackend.GetStorageAt`

The backend that answers `GetStorageAt` is not among the source files; only its
test is (`Describe("eth_getStorageAt")`). The definitions of this section are
written from the specification. -/

namespace QueryBackend

/-- Modelled from the spec: the `Header` record of the data model,
`{id, blockNumber, hash, parentHash, fingerprint}`; the type is not declared
in the source files. -/
structure Header where
  id : Nat
  blockNumber : Nat
  hash : Nat
  parentHash : Nat
  fingerprint : String
  deriving DecidableEq, Repr

/-- Modelled from the spec: the `StorageRecord` of the data model,
`{address, slotKey, value, blockHash}`, a changed slot observed at a block;
the type is not declared in the source files. The zero value is `0`. -/
structure StorageRecord where
  address : Nat
  slotKey : Nat
  value : Nat
  blockHash : Nat
  deriving DecidableEq, Repr

/-- Modelled from the spec: the persisted store the query layer reads, the
header table and the append-only storage records; its schema is not in the
source files. -/
structure Store where
  headers : List Header
  storage : List StorageRecord
  deriving DecidableEq, Repr

/-- Modelled from the spec: the lookup of a header "by exact hash" of the
query backend, which is not in the source files. -/
def headerByHash (store : Store) (blockHash : Nat) : Option Header :=
  store.headers.find? (fun h => h.hash == blockHash)

/-- Modelled from the spec: the parent of a stored header, the stored header
its `parentHash` names ("parent-hash links"); the backend that follows the
links is not in the source files. -/
def parentOf (store : Store) (header : Header) : Option Header :=
  headerByHash store header.parentHash

/-- Modelled from the spec: the record of a change of `(address, slotKey)`
observed at the block of a given hash, if there is one ("only changed slots
are recorded per block"); the backend that reads it is not in the source
files. -/
def recordIn (store : Store) (address slotKey blockHash : Nat) : Option StorageRecord :=
  store.storage.find? (fun r =>
    r.address == address && r.slotKey == slotKey && r.blockHash == blockHash)

/-- Modelled from the spec: the backward walk of `GetStorageAt`, which is not
in the source files: "walking backward through recorded changes" from the
target header along the parent-hash links, so that only the target's own
chain is read, and "bounded by a configured maximum depth", the number of
parent links the walk may follow. The walk ends at the first block with a
record, or with the zero value at a header whose parent is not stored, no
record existing at or before the target. The spec names no result for a walk
cut off by the maximum depth: that is `none`. -/
def walkBack (store : Store) (address slotKey : Nat) : Nat → Header → Option Nat
  | 0, header =>
      match recordIn store address slotKey header.hash with
      | some r => some r.value
      | none =>
          match parentOf store header with
          | none => some 0
          | some _ => none
  | depth + 1, header =>
      match recordIn store address slotKey header.hash with
      | some r => some r.value
      | none =>
          match parentOf store header with
          | none => some 0
          | some parent => walkBack store address slotKey depth parent

/-- Modelled from the spec: `GetStorageAt(blockHash, address, slotKey)` of the
query backend, which is not in the source files: "finds the most recent
StorageRecord for (address, slotKey) at or before the target header's block
number", returning "the zero value rather than an error" when there is none,
and also for an unknown hash. `maxDepth` is the configured maximum depth of
the walk; `none` is a walk cut off by it. -/
def GetStorageAt (store : Store) (maxDepth : Nat) (blockHash address slotKey : Nat) :
    Option (Except Error Nat) :=
  match headerByHash store blockHash with
  | none => some (.ok 0)
  | some header => (walkBack store address slotKey maxDepth header).map Except.ok

/-- Modelled from the spec: the blocks "at or before" a target header, the
target and the headers reached from it by parent-hash links; the resolver
that walks the links is not in the source files. -/
def OnChain (store : Store) (target b : Header) : Prop :=
  Relation.ReflTransGen (fun h p => parentOf store h = some p) target b

end QueryBackend

/-! ## Example states -/

/-- A store with one header, at block 100, not yet checked. -/
def exampleTables : Tables :=
  { headers := [⟨7, 100, "node"⟩], checked_headers := [], drip_file_repo := [] }

/-- A batch of two models. -/
def exampleModels : List DripFileRepoModel :=
  [⟨"vow", "1", 0, []⟩, ⟨"tax", "2", 1, []⟩]

/-- A connection on `exampleTables` whose fifth call fails. -/
def exampleCommitFails : DB :=
  { tables := exampleTables, nodeID := "node",
    faults := [none, none, none, none, some "commit failed"] }

/-- A store with five headers, in block order: unchecked, checked, marked
false, of another node, and out of the range 10..20. -/
def exampleStore : Tables :=
  { headers := [⟨1, 10, "node"⟩, ⟨2, 11, "node"⟩, ⟨3, 12, "node"⟩, ⟨5, 12, "other"⟩,
                ⟨4, 50, "node"⟩],
    checked_headers := [⟨2, true⟩, ⟨3, false⟩],
    drip_file_repo := [] }

/-- A fetcher that finds no log at any block, with converters that accept
every input. -/
def exampleNoLogs : External Unit Nat Nat :=
  { FetchLogs := fun _ x => (.ok [], x)
    ToEntities := fun logs x => (.ok logs, x)
    ToModels := fun es x => (.ok (es.map (fun n => ⟨"", "", n, []⟩)), x) }

/-- A store whose header of block 5 comes before its header of block 3. -/
def exampleUnordered : Tables :=
  { headers := [⟨1, 5, "node"⟩, ⟨2, 3, "node"⟩], checked_headers := [], drip_file_repo := [] }

/-- A fetcher that finds two logs at block 12 and none elsewhere, with
converters that accept every input. -/
def exampleLogsAt12 : External Unit Nat Nat :=
  { FetchLogs := fun bn x => (.ok (if bn = 12 then [0, 1] else []), x)
    ToEntities := fun logs x => (.ok logs, x)
    ToModels := fun es x => (.ok (es.map (fun n => ⟨"vow", "1", n, []⟩)), x) }

/-- The state a first run over blocks 10..20 of `exampleStore` ends in. -/
def exampleFirstRun : Run (DB × Unit) Nat Nat DripFileRepoModel :=
  ((storeTransformer ⟨10, 20⟩ exampleLogsAt12).Execute
    ({ tables := exampleStore, nodeID := "node", faults := [] }, ())).2

/-- The constant and the functions of the converter, for the examples: the
payload is 32 bytes wide. -/
def exampleDeps : PitFileDeps :=
  { DataItemLength := 32
    ConvertToRay := fun n => "ray " ++ n
    ConvertToWad := fun n => "wad " ++ n
    jsonMarshal := fun _ => .ok [] }

/-- A short byte string as a 32-byte topic, NUL-padded on the right. -/
def pad32 (b : List Nat) : List Nat :=
  b ++ List.replicate (32 - b.length) 0

/-- A log of a `file(ilk, "spot", 256)` note for the ilk `ETH`. -/
def exampleSpotLog : types.Log :=
  { Topics := [pad32 [26, 11], pad32 [1], pad32 [69, 84, 72], pad32 spot]
    Data := List.replicate 64 0 ++ (List.replicate 30 0 ++ [1, 0])
    Index := 4
    TxIndex := 2 }

/-- A log with three topics only. -/
def exampleShortLog : types.Log :=
  { Topics := [pad32 [26, 11], pad32 [1], pad32 [69, 84, 72]]
    Data := List.replicate 96 0
    Index := 5
    TxIndex := 2 }

/-- The model `exampleSpotLog` decodes to. -/
def exampleSpotModel : PitFileIlkModel :=
  { Ilk := [69, 84, 72], What := spot, Data := "ray 256", LogIndex := 4,
    TransactionIndex := 2, Raw := [] }

/-- The store `exampleStore` after `MarkHeaderChecked(3)`. -/
def exampleStoreMarked : Tables :=
  { exampleStore with checked_headers := [⟨2, true⟩, ⟨3, true⟩] }

/-- A chain of seven headers, blocks 0 to 6 with hashes 100 to 106, in which
slot 1 of address 7 is recorded as 1 at block 2 and as 3 at block 3, with a
sibling of block 3, of hash 203, in which the slot is recorded as 9. -/
def exampleChain : QueryBackend.Store :=
  { headers := [⟨1, 0, 100, 0, "node"⟩, ⟨2, 1, 101, 100, "node"⟩, ⟨3, 2, 102, 101, "node"⟩,
                ⟨4, 3, 103, 102, "node"⟩, ⟨8, 3, 203, 102, "node"⟩, ⟨5, 4, 104, 103, "node"⟩,
                ⟨6, 5, 105, 104, "node"⟩, ⟨7, 6, 106, 105, "node"⟩],
    storage := [⟨7, 1, 1, 102⟩, ⟨7, 1, 9, 203⟩, ⟨7, 1, 3, 103⟩] }

/-- A model whose transaction index has the top bit of a `uint` set. -/
def exampleHugeIndex : DripFileRepoModel :=
  ⟨"vow", "1", 2 ^ 63, []⟩

/-! ## Theorems -/

/-! ### The connection: calls never touch the committed tables except through
a successful statement or commit -/

theorem nextFault_tables (db : DB) :
    db.nextFault.2.tables = db.tables ∧ db.nextFault.2.nodeID = db.nodeID := by
  unfold DB.nextFault
  cases db.faults <;> simp

theorem Rollback_tables (tx : Tx) (db : DB) :
    (tx.Rollback db).tables = db.tables ∧ (tx.Rollback db).nodeID = db.nodeID := by
  unfold Tx.Rollback
  exact nextFault_tables db

theorem TxExec_spec (tx : Tx) (stmt : Stmt) (db : DB) :
    (tx.Exec stmt db).2.2.tables = db.tables ∧ (tx.Exec stmt db).2.2.nodeID = db.nodeID ∧
    ((tx.Exec stmt db).1 = none → (tx.Exec stmt db).2.1.work = stmt.apply tx.work) := by
  have h := nextFault_tables db
  unfold Tx.Exec
  rcases hf : db.nextFault with ⟨_ | err, db1⟩ <;> rw [hf] at h <;> simp_all

theorem insertModels_spec (headerID : Int) (models : List DripFileRepoModel) :
    ∀ (tx : Tx) (db : DB),
      (DripFileRepoRepository.insertModels headerID models tx db).2.2.tables = db.tables ∧
      (DripFileRepoRepository.insertModels headerID models tx db).2.2.nodeID = db.nodeID ∧
      ((DripFileRepoRepository.insertModels headerID models tx db).1 = none →
        (DripFileRepoRepository.insertModels headerID models tx db).2.1.work =
          { tx.work with
            drip_file_repo := tx.work.drip_file_repo ++
              models.map (DripFileRepoRepository.rowOf headerID) }) := by
  induction models with
  | nil => intro tx db; simp [DripFileRepoRepository.insertModels]
  | cons m rest ih =>
      intro tx db
      have hx := TxExec_spec tx (.insertDripFileRepo (DripFileRepoRepository.rowOf headerID m)) db
      unfold DripFileRepoRepository.insertModels
      rcases hr : tx.Exec (.insertDripFileRepo (DripFileRepoRepository.rowOf headerID m)) db
        with ⟨_ | err, tx1, db1⟩
      · rw [hr] at hx
        simp only [true_implies] at hx
        obtain ⟨h1, h2, h3⟩ := hx
        have := ih tx1 db1
        simp only [h1, h2, h3] at this ⊢
        simpa [Stmt.apply] using this
      · rw [hr] at hx
        have hrb := Rollback_tables tx1 db1
        simp_all

/-- The two outcomes of `Create`: it returns nil with the batch and the marker
committed, or an error with the committed tables as they were. -/
theorem Create_cases (db : DB) (headerID : Int) (models : List DripFileRepoModel) :
    (DripFileRepoRepository.Create db headerID models).2.nodeID = db.nodeID ∧
    (((DripFileRepoRepository.Create db headerID models).1 = none ∧
      (DripFileRepoRepository.Create db headerID models).2.tables =
        { headers := db.tables.headers
          checked_headers := upsertCheckedRows headerID true db.tables.checked_headers
          drip_file_repo := db.tables.drip_file_repo ++
            models.map (DripFileRepoRepository.rowOf headerID) }) ∨
     ((DripFileRepoRepository.Create db headerID models).1 ≠ none ∧
      (DripFileRepoRepository.Create db headerID models).2.tables = db.tables)) := by
  have hb := nextFault_tables db
  unfold DripFileRepoRepository.Create DB.Begin
  rcases hf : db.nextFault with ⟨_ | err, db1⟩
  · rw [hf] at hb
    obtain ⟨hb1, hb2⟩ := hb
    simp only at hb1 hb2 ⊢
    have hi := insertModels_spec headerID models { work := db1.tables } db1
    rcases hr : DripFileRepoRepository.insertModels headerID models { work := db1.tables } db1
      with ⟨_ | err, tx2, db2⟩
    · rw [hr] at hi
      simp only [true_implies] at hi
      obtain ⟨hi1, hi2, hi3⟩ := hi
      simp only
      have hu := TxExec_spec tx2 (.upsertChecked headerID true) db2
      rcases hu' : tx2.Exec (.upsertChecked headerID true) db2 with ⟨_ | err, tx3, db3⟩
      · rw [hu'] at hu
        simp only [true_implies] at hu
        obtain ⟨hu1, hu2, hu3⟩ := hu
        simp only
        have hc := nextFault_tables db3
        unfold Tx.Commit
        rcases hf3 : db3.nextFault with ⟨_ | err, db4⟩
        · rw [hf3] at hc
          simp only at hc ⊢
          refine ⟨by rw [hc.2, hu2, hi2, hb2], Or.inl ⟨trivial, ?_⟩⟩
          rw [hu3, hi3, ← hb1]
          simp [Stmt.apply]
        · rw [hf3] at hc
          simp only at hc ⊢
          refine ⟨by rw [hc.2, hu2, hi2, hb2], Or.inr ⟨by simp, ?_⟩⟩
          rw [hc.1, hu1, hi1, hb1]
      · rw [hu'] at hu
        have hrb := Rollback_tables tx3 db3
        simp only at hu ⊢
        refine ⟨by rw [hrb.2, hu.2.1, hi2, hb2], Or.inr ⟨by simp, ?_⟩⟩
        rw [hrb.1, hu.1, hi1, hb1]
    · rw [hr] at hi
      simp only at hi ⊢
      refine ⟨by rw [hi.2.1, hb2], Or.inr ⟨by simp, ?_⟩⟩
      rw [hi.1, hb1]
  · rw [hf] at hb
    simp only at hb ⊢
    exact ⟨hb.2, Or.inr ⟨by simp, hb.1⟩⟩

/-- C2. If `DripFileRepoRepository.Create` returns an error, whichever call
failed (`Begin`, an insert, the marker upsert or `Commit`), the persisted state
after the call is the state before it: no model row of the batch is stored and
the checked markers are unchanged. -/
theorem Create_error_persists_nothing (db db' : DB) (headerID : Int)
    (models : List DripFileRepoModel) (err : Error)
    (herr : DripFileRepoRepository.Create db headerID models = (some err, db')) :
    db'.tables = db.tables ∧
    db'.tables.drip_file_repo = db.tables.drip_file_repo ∧
    db'.tables.checked_headers = db.tables.checked_headers ∧
    (headerChecked db'.tables headerID ↔ headerChecked db.tables headerID) := by
  have h := (Create_cases db headerID models).2
  rw [herr] at h
  rcases h with ⟨h1, _⟩ | ⟨_, h2⟩
  · simp at h1
  · simp only at h2
    simp [h2]

/-- Witness for C2: a batch of two models whose `Commit` fails after both
inserts and the marker upsert succeeded; nothing is persisted. -/
theorem Create_error_persists_nothing_witness :
    DripFileRepoRepository.Create exampleCommitFails 7 exampleModels
      = (some "commit failed", { tables := exampleTables, nodeID := "node", faults := [] }) ∧
    exampleTables = exampleCommitFails.tables ∧
    exampleTables.drip_file_repo = exampleCommitFails.tables.drip_file_repo ∧
    exampleTables.checked_headers = exampleCommitFails.tables.checked_headers ∧
    (headerChecked exampleTables 7 ↔ headerChecked exampleCommitFails.tables 7) :=
  ⟨by decide,
   Create_error_persists_nothing exampleCommitFails
     { tables := exampleTables, nodeID := "node", faults := [] }
     7 exampleModels "commit failed" (by decide)⟩

theorem upsertCheckedRows_checked (headerID : Int) (rows : List CheckedHeaderRow) :
    (∃ c ∈ upsertCheckedRows headerID true rows, c.header_id = headerID) ∧
    ∀ c ∈ upsertCheckedRows headerID true rows,
      c.header_id = headerID → c.drip_file_repo_checked = true := by
  unfold upsertCheckedRows
  split
  · rename_i hany
    simp only [List.any_eq_true, beq_iff_eq] at hany
    obtain ⟨c, hc, hid⟩ := hany
    constructor
    · exact ⟨{ c with drip_file_repo_checked := true },
        List.mem_map.mpr ⟨c, hc, by simp [hid]⟩, hid⟩
    · intro d hd hdid
      obtain ⟨c0, _, rfl⟩ := List.mem_map.mp hd
      by_cases h0 : c0.header_id = headerID
      · simp [h0]
      · simp [h0] at hdid
  · rename_i hany
    simp only [List.any_eq_true, beq_iff_eq, not_exists, not_and] at hany
    constructor
    · exact ⟨⟨headerID, true⟩, by simp, rfl⟩
    · intro d hd hdid
      rcases List.mem_append.mp hd with hd | hd
      · exact absurd hdid (hany d hd)
      · simp at hd
        simp [hd]

theorem int64OfUint_small (v : Nat) (h : v < 2 ^ 63) : int64OfUint v = (v : Int) := by
  unfold int64OfUint
  have hmod : v % 2 ^ 64 = v := Nat.mod_eq_of_lt (by omega)
  rw [hmod, if_pos h]

/-- C3, as amended. `DripFileRepoRepository.Create(h, ms)` that returns nil
has appended to the model table one row per element of `ms`, in order, each
with `header_id = h`, the model's `what` and `raw_log`, `data` the `NUMERIC`
cast of the model's `Data`, and `tx_idx` the model's `TransactionIndex`
converted to `int64`, which is the same number when it is below `2 ^ 63`; it
has upserted the marker of `h`, which is then true, and has left the headers
alone. A call that returns an error has stored neither a row of the batch nor
the marker. So the batch rows and the marker are written together or not at
all. -/
theorem Create_nil_stores_batch_with_marker (db : DB) (headerID : Int)
    (models : List DripFileRepoModel) :
    match DripFileRepoRepository.Create db headerID models with
    | (none, db') =>
        db'.tables.drip_file_repo =
          db.tables.drip_file_repo ++
            models.map (fun m =>
              { header_id := headerID, what := m.What, data := Numeric.ofText m.Data,
                tx_idx := int64OfUint m.TransactionIndex, raw_log := m.Raw }) ∧
        (∀ m ∈ models, m.TransactionIndex < 2 ^ 63 →
          int64OfUint m.TransactionIndex = (m.TransactionIndex : Int)) ∧
        db'.tables.checked_headers =
          upsertCheckedRows headerID true db.tables.checked_headers ∧
        headerChecked db'.tables headerID ∧
        db'.tables.headers = db.tables.headers
    | (some _, db') =>
        db'.tables.drip_file_repo = db.tables.drip_file_repo ∧
        db'.tables.checked_headers = db.tables.checked_headers ∧
        db'.tables.headers = db.tables.headers := by
  have h := (Create_cases db headerID models).2
  rcases hr : DripFileRepoRepository.Create db headerID models with ⟨_ | err, db'⟩
  · rw [hr] at h
    rcases h with ⟨_, h2⟩ | ⟨h1, _⟩
    · simp only at h2 ⊢
      rw [h2]
      refine ⟨rfl, fun m _ hm => int64OfUint_small m.TransactionIndex hm, rfl, ?_, rfl⟩
      exact upsertCheckedRows_checked headerID db.tables.checked_headers
    · simp at h1
  · rw [hr] at h
    rcases h with ⟨h1, _⟩ | ⟨_, h2⟩
    · simp at h1
    · simp only at h2 ⊢
      simp [h2]

/-- C3, counterexample: a model whose `TransactionIndex` is `2 ^ 63` is stored,
by a `Create` that returns nil, with the negative `tx_idx` `-2 ^ 63`, which is
not the model's `TransactionIndex`. -/
theorem Create_tx_idx_counterexample :
    (DripFileRepoRepository.Create
        { tables := exampleTables, nodeID := "node", faults := [] } 7 [exampleHugeIndex]).1
      = none ∧
    (DripFileRepoRepository.Create
        { tables := exampleTables, nodeID := "node", faults := [] } 7
        [exampleHugeIndex]).2.tables.drip_file_repo
      = [⟨7, "vow", Numeric.ofText "1", -9223372036854775808, []⟩] ∧
    exampleHugeIndex.TransactionIndex = 9223372036854775808 ∧
    (-9223372036854775808 : Int) ≠ (exampleHugeIndex.TransactionIndex : Int) := by
  refine ⟨by rfl, by rfl, by rfl, by decide⟩

/-! ### `MissingHeaders` -/

theorem mem_leftJoinChecked (t : Tables) (h : HeaderRow) (o : Option CheckedHeaderRow) :
    (h, o) ∈ leftJoinChecked t ↔
      h ∈ t.headers ∧
      ((o = none ∧ ∀ c ∈ t.checked_headers, c.header_id ≠ h.id) ∨
       (∃ c, o = some c ∧ c ∈ t.checked_headers ∧ c.header_id = h.id)) := by
  unfold leftJoinChecked
  simp only [List.mem_flatMap]
  constructor
  · rintro ⟨h0, hh0, hmem⟩
    rcases hf : t.checked_headers.filter (fun c => c.header_id = h0.id) with _ | ⟨c1, cs⟩
    · rw [hf] at hmem
      simp only [List.mem_singleton, Prod.mk.injEq] at hmem
      obtain ⟨rfl, rfl⟩ := hmem
      refine ⟨hh0, Or.inl ⟨rfl, ?_⟩⟩
      intro c hc hid
      have : c ∈ t.checked_headers.filter (fun c => c.header_id = h.id) := by
        simp [List.mem_filter, hc, hid]
      rw [hf] at this
      simp at this
    · rw [hf] at hmem
      simp only [List.mem_map, Prod.mk.injEq] at hmem
      obtain ⟨c, hc, rfl, rfl⟩ := hmem
      rw [← hf] at hc
      simp only [List.mem_filter, decide_eq_true_eq] at hc
      exact ⟨hh0, Or.inr ⟨c, rfl, hc.1, hc.2⟩⟩
  · rintro ⟨hh, hcase⟩
    refine ⟨h, hh, ?_⟩
    rcases hcase with ⟨rfl, hnone⟩ | ⟨c, rfl, hc, hid⟩
    · have : t.checked_headers.filter (fun c => c.header_id = h.id) = [] := by
        simp only [List.filter_eq_nil_iff, decide_eq_true_eq]
        exact hnone
      rw [this]
      simp
    · have hcf : c ∈ t.checked_headers.filter (fun c => c.header_id = h.id) := by
        simp [List.mem_filter, hc, hid]
      rcases hf : t.checked_headers.filter (fun c => c.header_id = h.id) with _ | ⟨c1, cs⟩
      · rw [hf] at hcf
        simp at hcf
      · rw [hf] at hcf ⊢
        exact List.mem_map.mpr ⟨c, hcf, rfl⟩

/-- The condition under which a stored header is missing. -/
theorem mem_missingHeadersQuery (t : Tables) (s e : Int) (nodeID : String)
    (hd : core.Header) :
    hd ∈ missingHeadersQuery t s e nodeID ↔
      ∃ r ∈ t.headers, hd = { Id := r.id, BlockNumber := r.block_number } ∧
        s ≤ r.block_number ∧ r.block_number ≤ e ∧ r.eth_node_fingerprint = nodeID ∧
        ((∀ c ∈ t.checked_headers, c.header_id ≠ r.id) ∨
         (∃ c ∈ t.checked_headers, c.header_id = r.id ∧ c.drip_file_repo_checked = false)) := by
  unfold missingHeadersQuery
  simp only [List.mem_map, List.mem_filter, Prod.exists, mem_leftJoinChecked]
  constructor
  · rintro ⟨r, o, ⟨⟨hr, hcase⟩, hw⟩, rfl⟩
    refine ⟨r, hr, rfl, ?_⟩
    unfold missingWhere at hw
    simp only [Bool.and_eq_true, decide_eq_true_eq, ge_iff_le] at hw
    obtain ⟨⟨⟨hflag, hs⟩, he⟩, hfp⟩ := hw
    refine ⟨hs, he, hfp, ?_⟩
    rcases hcase with ⟨rfl, hnone⟩ | ⟨c, rfl, hc, hid⟩
    · exact Or.inl hnone
    · exact Or.inr ⟨c, hc, hid, by simpa using hflag⟩
  · rintro ⟨r, hr, rfl, hs, he, hfp, hcase⟩
    rcases hcase with hnone | ⟨c, hc, hid, hflag⟩
    · exact ⟨r, none, ⟨⟨hr, Or.inl ⟨rfl, hnone⟩⟩, by simp [missingWhere, hs, he, hfp]⟩, rfl⟩
    · exact ⟨r, some c, ⟨⟨hr, Or.inr ⟨c, rfl, hc, hid⟩⟩,
        by simp [missingWhere, hs, he, hfp, hflag]⟩, rfl⟩

/-- C4. When `DripFileRepoRepository.MissingHeaders` answers, a header value is
in the result exactly when it is the `(id, block_number)` of a stored header
whose block number lies in `[startingBlockNumber, endingBlockNumber]`, whose
node fingerprint is the repository's node id, and which has no checked-marker
row or a marker row with `drip_file_repo_checked` false. With `headers.id` a
key, this is a condition on each stored header. The query writes nothing. -/
theorem MissingHeaders_membership (db db' : DB)
    (startingBlockNumber endingBlockNumber : Int) (result : List core.Header)
    (hok : DripFileRepoRepository.MissingHeaders db startingBlockNumber endingBlockNumber
      = (.ok result, db')) :
    (∀ hd : core.Header, hd ∈ result ↔
      ∃ r ∈ db.tables.headers, hd = { Id := r.id, BlockNumber := r.block_number } ∧
        startingBlockNumber ≤ r.block_number ∧ r.block_number ≤ endingBlockNumber ∧
        r.eth_node_fingerprint = db.nodeID ∧
        ((∀ c ∈ db.tables.checked_headers, c.header_id ≠ r.id) ∨
         (∃ c ∈ db.tables.checked_headers,
            c.header_id = r.id ∧ c.drip_file_repo_checked = false))) ∧
    ((db.tables.headers.map (fun r => r.id)).Nodup →
      ∀ r ∈ db.tables.headers,
        (({ Id := r.id, BlockNumber := r.block_number } : core.Header) ∈ result ↔
          startingBlockNumber ≤ r.block_number ∧ r.block_number ≤ endingBlockNumber ∧
          r.eth_node_fingerprint = db.nodeID ∧
          ((∀ c ∈ db.tables.checked_headers, c.header_id ≠ r.id) ∨
           (∃ c ∈ db.tables.checked_headers,
              c.header_id = r.id ∧ c.drip_file_repo_checked = false)))) ∧
    db'.tables = db.tables := by
  have hnf := nextFault_tables db
  unfold DripFileRepoRepository.MissingHeaders DB.SelectMissingHeaders at hok
  rcases hf : db.nextFault with ⟨_ | err, db1⟩
  · rw [hf] at hok hnf
    simp only [Prod.mk.injEq, Except.ok.injEq] at hok hnf
    obtain ⟨hres, hdb⟩ := hok
    subst hdb
    rw [hnf.1, hnf.2] at hres
    subst hres
    have hall := mem_missingHeadersQuery db.tables startingBlockNumber endingBlockNumber db.nodeID
    refine ⟨hall, ?_, hnf.1⟩
    intro hkey r hr
    rw [hall]
    constructor
    · rintro ⟨r', hr', heq, hrest⟩
      have hid : r'.id = r.id := by
        have := congrArg core.Header.Id heq
        exact this.symm
      have : r' = r := List.inj_on_of_nodup_map hkey hr' hr hid
      subst this
      exact hrest
    · intro hrest
      exact ⟨r, hr, rfl, hrest⟩
  · rw [hf] at hok
    simp at hok

/-- Witness for C4: on `exampleStore` with the range 10..20 the result is the
unchecked header 1 and the false-marked header 3, and header 3 is in it for
the stated reason. -/
theorem MissingHeaders_membership_witness :
    DripFileRepoRepository.MissingHeaders
        { tables := exampleStore, nodeID := "node", faults := [] } 10 20
      = (.ok [⟨1, 10⟩, ⟨3, 12⟩], { tables := exampleStore, nodeID := "node", faults := [] }) ∧
    ((⟨3, 12⟩ : core.Header) ∈ [(⟨1, 10⟩ : core.Header), ⟨3, 12⟩] ↔
      (10 : Int) ≤ 12 ∧ (12 : Int) ≤ 20 ∧ "node" = "node" ∧
      ((∀ c ∈ exampleStore.checked_headers, c.header_id ≠ 3) ∨
       (∃ c ∈ exampleStore.checked_headers,
          c.header_id = 3 ∧ c.drip_file_repo_checked = false))) :=
  ⟨by rfl,
   (MissingHeaders_membership
      { tables := exampleStore, nodeID := "node", faults := [] }
      { tables := exampleStore, nodeID := "node", faults := [] }
      10 20 [⟨1, 10⟩, ⟨3, 12⟩] (by rfl)).2.1 (by decide) ⟨3, 12, "node"⟩ (by decide)⟩

/-! ### `Execute`: errors and the trace of calls -/

section ExecuteTrace

variable {W Log Entity Model : Type}

theorem firstErrorLast_fail {r r' : Run W Log Entity Model} {c : Call Log Entity Model}
    {err : Error} (hclean : ∀ ev ∈ r.trace, ev.err = none)
    (htrace : r'.trace = r.trace ++ [{ call := c, err := some err }]) :
    FirstErrorLast (some err, r') :=
  Or.inr ⟨err, r.trace, _, rfl, htrace, rfl, hclean⟩

theorem clean_step {r r' : Run W Log Entity Model} {c : Call Log Entity Model}
    (hclean : ∀ ev ∈ r.trace, ev.err = none)
    (htrace : r'.trace = r.trace ++ [{ call := c, err := none }]) :
    ∀ ev ∈ r'.trace, ev.err = none := by
  intro ev hev
  rw [htrace] at hev
  rcases List.mem_append.mp hev with h | h
  · exact hclean ev h
  · simp at h
    simp [h]

theorem callFetchLogs_trace (t : FrobTransformer W Log Entity Model) (bn : Int)
    (r : Run W Log Entity Model) :
    (t.callFetchLogs bn r).2.trace =
      r.trace ++ [{ call := .FetchLogs bn, err := errOf (t.callFetchLogs bn r).1 }] := rfl

theorem callMarkHeaderChecked_trace (t : FrobTransformer W Log Entity Model) (id : Int)
    (r : Run W Log Entity Model) :
    (t.callMarkHeaderChecked id r).2.trace =
      r.trace ++ [{ call := .MarkHeaderChecked id, err := (t.callMarkHeaderChecked id r).1 }] :=
  rfl

theorem callToEntities_trace (t : FrobTransformer W Log Entity Model) (logs : List Log)
    (r : Run W Log Entity Model) :
    (t.callToEntities logs r).2.trace =
      r.trace ++ [{ call := .ToEntities logs, err := errOf (t.callToEntities logs r).1 }] := rfl

theorem callToModels_trace (t : FrobTransformer W Log Entity Model) (es : List Entity)
    (r : Run W Log Entity Model) :
    (t.callToModels es r).2.trace =
      r.trace ++ [{ call := .ToModels es, err := errOf (t.callToModels es r).1 }] := rfl

theorem callCreate_trace (t : FrobTransformer W Log Entity Model) (id : Int)
    (ms : List Model) (r : Run W Log Entity Model) :
    (t.callCreate id ms r).2.trace =
      r.trace ++ [{ call := .Create id ms, err := (t.callCreate id ms r).1 }] := rfl

theorem callMissingHeaders_trace (t : FrobTransformer W Log Entity Model) (s e : Int)
    (r : Run W Log Entity Model) :
    (t.callMissingHeaders s e r).2.trace =
      r.trace ++ [{ call := .MissingHeaders s e, err := errOf (t.callMissingHeaders s e r).1 }] :=
  rfl

theorem executeHeader_firstErrorLast (t : FrobTransformer W Log Entity Model)
    (header : core.Header) (r : Run W Log Entity Model)
    (hclean : ∀ ev ∈ r.trace, ev.err = none) :
    FirstErrorLast (t.executeHeader header r) := by
  unfold FrobTransformer.executeHeader
  have h1 := callFetchLogs_trace t header.BlockNumber r
  rcases hf : t.callFetchLogs header.BlockNumber r with ⟨err | logs, r1⟩
  · rw [hf] at h1
    exact firstErrorLast_fail hclean h1
  · rw [hf] at h1
    have hc1 := clean_step hclean h1
    simp only
    have hmark : ∀ res : Option Error × Run W Log Entity Model,
        (if logs.length < 1 then t.callMarkHeaderChecked header.Id r1 else (none, r1)) = res →
        (∃ err, res.1 = some err ∧ FirstErrorLast res) ∨
        (res.1 = none ∧ ∀ ev ∈ res.2.trace, ev.err = none) := by
      intro res hres
      by_cases hlen : logs.length < 1
      · rw [if_pos hlen] at hres
        have h2 := callMarkHeaderChecked_trace t header.Id r1
        rw [hres] at h2
        rcases res with ⟨_ | err, r2⟩
        · exact Or.inr ⟨rfl, clean_step hc1 h2⟩
        · exact Or.inl ⟨err, rfl, firstErrorLast_fail hc1 h2⟩
      · rw [if_neg hlen] at hres
        subst hres
        exact Or.inr ⟨rfl, hc1⟩
    rcases hm : (if logs.length < 1 then t.callMarkHeaderChecked header.Id r1 else (none, r1))
      with ⟨_ | err, r2⟩
    · rcases hmark _ hm with ⟨err, he, _⟩ | ⟨_, hc2⟩
      · simp at he
      · simp only at hc2 ⊢
        have h3 := callToEntities_trace t logs r2
        rcases he : t.callToEntities logs r2 with ⟨err | entities, r3⟩
        · rw [he] at h3
          exact firstErrorLast_fail hc2 h3
        · rw [he] at h3
          have hc3 := clean_step hc2 h3
          simp only
          have h4 := callToModels_trace t entities r3
          rcases hmo : t.callToModels entities r3 with ⟨err | models, r4⟩
          · rw [hmo] at h4
            exact firstErrorLast_fail hc3 h4
          · rw [hmo] at h4
            have hc4 := clean_step hc3 h4
            simp only
            have h5 := callCreate_trace t header.Id models r4
            rcases hcr : t.callCreate header.Id models r4 with ⟨_ | err, r5⟩
            · rw [hcr] at h5
              exact Or.inl ⟨rfl, clean_step hc4 h5⟩
            · rw [hcr] at h5
              exact firstErrorLast_fail hc4 h5
    · rcases hmark _ hm with ⟨err', _, hfe⟩ | ⟨he, _⟩
      · exact hfe
      · simp at he

theorem executeHeaders_firstErrorLast (t : FrobTransformer W Log Entity Model)
    (headers : List core.Header) :
    ∀ r : Run W Log Entity Model, (∀ ev ∈ r.trace, ev.err = none) →
      FirstErrorLast (t.executeHeaders headers r) := by
  induction headers with
  | nil => intro r hclean; exact Or.inl ⟨rfl, hclean⟩
  | cons header rest ih =>
      intro r hclean
      unfold FrobTransformer.executeHeaders
      have h := executeHeader_firstErrorLast t header r hclean
      rcases hh : t.executeHeader header r with ⟨_ | err, r1⟩
      · rw [hh] at h
        rcases h with ⟨_, hc⟩ | ⟨err, _, _, he, _⟩
        · exact ih r1 hc
        · simp at he
      · rw [hh] at h
        exact h

theorem Execute_firstErrorLast (t : FrobTransformer W Log Entity Model) (w : W) :
    FirstErrorLast (t.Execute w) := by
  unfold FrobTransformer.Execute
  have h1 := callMissingHeaders_trace t t.Config.StartingBlockNumber
    t.Config.EndingBlockNumber { world := w, trace := [] }
  have hclean : ∀ ev ∈ ({ world := w, trace := [] } : Run W Log Entity Model).trace,
      ev.err = none := by simp
  rcases hm : t.callMissingHeaders t.Config.StartingBlockNumber
    t.Config.EndingBlockNumber { world := w, trace := [] } with ⟨err | headers, r1⟩
  · rw [hm] at h1
    exact firstErrorLast_fail hclean h1
  · rw [hm] at h1
    exact executeHeaders_firstErrorLast t headers r1 (clean_step hclean h1)

end ExecuteTrace

/-- C6. `FrobTransformer.Execute` returns the error of the first collaborator
call that fails (`MissingHeaders`, `FetchLogs`, `MarkHeaderChecked`,
`ToEntities`, `ToModels` or `Create`), as that call returned it, and that call
is the last one it makes: every call before it succeeded and none follows.
It returns nil exactly when no call failed. -/
theorem Execute_returns_first_error {W Log Entity Model : Type}
    (transformer : FrobTransformer W Log Entity Model) (w : W) :
    (∀ err, (transformer.Execute w).1 = some err →
      ∃ pre last, (transformer.Execute w).2.trace = pre ++ [last] ∧
        last.err = some err ∧ ∀ ev ∈ pre, ev.err = none) ∧
    ((transformer.Execute w).1 = none ↔
      ∀ ev ∈ (transformer.Execute w).2.trace, ev.err = none) := by
  have h := Execute_firstErrorLast transformer w
  unfold FirstErrorLast at h
  rcases h with ⟨hnone, hclean⟩ | ⟨err, pre, last, hsome, htrace, hlast, hpre⟩
  · refine ⟨?_, ⟨fun _ => hclean, fun _ => hnone⟩⟩
    intro err herr
    rw [hnone] at herr
    simp at herr
  · refine ⟨?_, ?_⟩
    · intro err' herr'
      rw [hsome] at herr'
      simp only [Option.some.injEq] at herr'
      subst herr'
      exact ⟨pre, last, htrace, hlast, hpre⟩
    · constructor
      · intro hnone
        rw [hsome] at hnone
        simp at hnone
      · intro hclean
        have := hclean last (by rw [htrace]; simp)
        rw [hlast] at this
        simp at this

/-- C1, evaluated: for a header with zero logs, `Execute` calls
`MarkHeaderChecked` and then, in the same iteration, `ToEntities`, `ToModels`
and `Create` on the empty lists. -/
theorem Execute_zero_logs_falls_through :
    ((storeTransformer ⟨0, 1000⟩ exampleNoLogs).Execute
        ({ tables := exampleTables, nodeID := "node", faults := [] }, ())).2.trace =
      [⟨.MissingHeaders 0 1000, none⟩, ⟨.FetchLogs 100, none⟩, ⟨.MarkHeaderChecked 7, none⟩,
       ⟨.ToEntities [], none⟩, ⟨.ToModels [], none⟩, ⟨.Create 7 [], none⟩] := by
  rfl

/-- C5, evaluated: for a header with zero logs whose `MarkHeaderChecked`
succeeds and whose `Create` then fails, `Execute` returns the error of
`Create` with the marker of the header persisted, and the next
`MissingHeaders` query no longer returns the header. -/
theorem Execute_error_after_mark_keeps_marker :
    ((storeTransformer ⟨0, 1000⟩ exampleNoLogs).Execute
        ({ tables := exampleTables, nodeID := "node",
           faults := [none, none, some "begin failed"] }, ())).1 = some "begin failed" ∧
    ((storeTransformer ⟨0, 1000⟩ exampleNoLogs).Execute
        ({ tables := exampleTables, nodeID := "node",
           faults := [none, none, some "begin failed"] }, ())).2.world.1.tables.checked_headers
      = [⟨7, true⟩] ∧
    missingHeadersQuery exampleTables 0 1000 "node" = [⟨7, 100⟩] ∧
    missingHeadersQuery
      ((storeTransformer ⟨0, 1000⟩ exampleNoLogs).Execute
        ({ tables := exampleTables, nodeID := "node",
           faults := [none, none, some "begin failed"] }, ())).2.world.1.tables
      0 1000 "node" = [] := by
  refine ⟨by rfl, by rfl, by rfl, by rfl⟩

/-! ### `Execute`: the order of the `FetchLogs` calls -/

section FetchOrder

variable {W Log Entity Model : Type}

theorem fetchedBlocks_append (a b : List (Event Log Entity Model)) :
    fetchedBlocks (a ++ b) = fetchedBlocks a ++ fetchedBlocks b := by
  unfold fetchedBlocks
  exact List.filterMap_append _ _ _

theorem executeHeader_fetched (t : FrobTransformer W Log Entity Model)
    (header : core.Header) (r : Run W Log Entity Model) :
    fetchedBlocks (t.executeHeader header r).2.trace =
      fetchedBlocks r.trace ++ [header.BlockNumber] := by
  unfold FrobTransformer.executeHeader
  have h1 := callFetchLogs_trace t header.BlockNumber r
  rcases hf : t.callFetchLogs header.BlockNumber r with ⟨err | logs, r1⟩
  all_goals rw [hf] at h1
  all_goals have e1 : fetchedBlocks r1.trace = fetchedBlocks r.trace ++ [header.BlockNumber] := by
              rw [h1, fetchedBlocks_append]; rfl
  · exact e1
  · simp only
    have h2 := callMarkHeaderChecked_trace t header.Id r1
    have e2 : ∀ res, (if logs.length < 1 then t.callMarkHeaderChecked header.Id r1
        else (none, r1)) = res → fetchedBlocks res.2.trace = fetchedBlocks r1.trace := by
      intro res hres
      split at hres
      · rw [← hres, h2, fetchedBlocks_append]; simp [fetchedBlocks, fetchedBlock]
      · rw [← hres]
    rcases hm : (if logs.length < 1 then t.callMarkHeaderChecked header.Id r1 else (none, r1))
      with ⟨_ | err, r2⟩
    all_goals have e2' := e2 _ hm
    all_goals simp only at e2' ⊢
    · have h3 := callToEntities_trace t logs r2
      rcases he : t.callToEntities logs r2 with ⟨err | entities, r3⟩
      all_goals rw [he] at h3
      all_goals have e3 : fetchedBlocks r3.trace = fetchedBlocks r2.trace := by
                  rw [h3, fetchedBlocks_append]; simp [fetchedBlocks, fetchedBlock]
      · simp only; rw [e3, e2', e1]
      · simp only
        have h4 := callToModels_trace t entities r3
        rcases hmo : t.callToModels entities r3 with ⟨err | models, r4⟩
        all_goals rw [hmo] at h4
        all_goals have e4 : fetchedBlocks r4.trace = fetchedBlocks r3.trace := by
                    rw [h4, fetchedBlocks_append]; simp [fetchedBlocks, fetchedBlock]
        · simp only; rw [e4, e3, e2', e1]
        · simp only
          have h5 := callCreate_trace t header.Id models r4
          rcases hcr : t.callCreate header.Id models r4 with ⟨_ | err, r5⟩
          all_goals rw [hcr] at h5
          all_goals have e5 : fetchedBlocks r5.trace = fetchedBlocks r4.trace := by
                      rw [h5, fetchedBlocks_append]; simp [fetchedBlocks, fetchedBlock]
          all_goals simp only
          all_goals rw [e5, e4, e3, e2', e1]
    · rw [e2', e1]
theorem executeHeaders_fetched (t : FrobTransformer W Log Entity Model)
    (headers : List core.Header) :
    ∀ r : Run W Log Entity Model,
      ∃ p, p <+: headers.map (fun h => h.BlockNumber) ∧
        fetchedBlocks (t.executeHeaders headers r).2.trace = fetchedBlocks r.trace ++ p ∧
        ((t.executeHeaders headers r).1 = none → p = headers.map (fun h => h.BlockNumber)) := by
  induction headers with
  | nil => intro r; exact ⟨[], by simp, by simp [FrobTransformer.executeHeaders], fun _ => rfl⟩
  | cons header rest ih =>
      intro r
      unfold FrobTransformer.executeHeaders
      have h := executeHeader_fetched t header r
      rcases hh : t.executeHeader header r with ⟨_ | err, r1⟩
      · rw [hh] at h
        obtain ⟨p, hp, htr, hall⟩ := ih r1
        refine ⟨header.BlockNumber :: p, ?_, ?_, ?_⟩
        · simpa using hp
        · simp only at h ⊢
          rw [htr, h]
          simp
        · intro hnone
          simp only at hnone
          rw [hall hnone]
          simp
      · rw [hh] at h
        refine ⟨[header.BlockNumber], by simp, h, ?_⟩
        intro hnone
        simp at hnone

end FetchOrder

theorem MissingHeaders_spec (db : DB) (s e : Int) :
    ((DripFileRepoRepository.MissingHeaders db s e).1 =
        .ok (missingHeadersQuery db.tables s e db.nodeID) ∨
      ∃ err, (DripFileRepoRepository.MissingHeaders db s e).1 = .error err) ∧
    (DripFileRepoRepository.MissingHeaders db s e).2.tables = db.tables ∧
    (DripFileRepoRepository.MissingHeaders db s e).2.nodeID = db.nodeID := by
  have hnf := nextFault_tables db
  unfold DripFileRepoRepository.MissingHeaders DB.SelectMissingHeaders
  rcases hf : db.nextFault with ⟨_ | err, db1⟩
  · rw [hf] at hnf
    simp only at hnf ⊢
    rw [hnf.1, hnf.2]
    exact ⟨Or.inl rfl, rfl, rfl⟩
  · rw [hf] at hnf
    simp only at hnf ⊢
    exact ⟨Or.inr ⟨err, rfl⟩, hnf.1, hnf.2⟩

/-- The first step of `Execute` over the store: the `MissingHeaders` call. -/
theorem store_callMissingHeaders {X Log Entity : Type} (config : shared.TransformerConfig)
    (ext : External X Log Entity) (db : DB) (x : X) (s e : Int) :
    ((storeTransformer config ext).callMissingHeaders s e { world := (db, x), trace := [] }).1
      = (DripFileRepoRepository.MissingHeaders db s e).1 ∧
    ((storeTransformer config ext).callMissingHeaders s e { world := (db, x), trace := [] }).2
      = { world := ((DripFileRepoRepository.MissingHeaders db s e).2, x),
          trace := [{ call := .MissingHeaders s e,
                      err := errOf (DripFileRepoRepository.MissingHeaders db s e).1 }] } :=
  ⟨rfl, rfl⟩

/-- The run of `Execute` over the store when the `MissingHeaders` call fails. -/
theorem store_Execute_error {X Log Entity : Type} (config : shared.TransformerConfig)
    (ext : External X Log Entity) (db : DB) (x : X) (err : Error)
    (r : Run (DB × X) Log Entity DripFileRepoModel)
    (h : (storeTransformer config ext).callMissingHeaders config.StartingBlockNumber
      config.EndingBlockNumber { world := (db, x), trace := [] } = (.error err, r)) :
    (storeTransformer config ext).Execute (db, x) = (some err, r) := by
  unfold FrobTransformer.Execute
  simp only [show (storeTransformer config ext).Config = config from rfl]
  rw [h]

/-- The run of `Execute` over the store when the `MissingHeaders` call answers. -/
theorem store_Execute_ok {X Log Entity : Type} (config : shared.TransformerConfig)
    (ext : External X Log Entity) (db : DB) (x : X) (headers : List core.Header)
    (r : Run (DB × X) Log Entity DripFileRepoModel)
    (h : (storeTransformer config ext).callMissingHeaders config.StartingBlockNumber
      config.EndingBlockNumber { world := (db, x), trace := [] } = (.ok headers, r)) :
    (storeTransformer config ext).Execute (db, x) =
      (storeTransformer config ext).executeHeaders headers r := by
  unfold FrobTransformer.Execute
  simp only [show (storeTransformer config ext).Config = config from rfl]
  rw [h]

/-- C10, as amended. The block numbers `Execute` passes to `FetchLogs` are
taken from the list `MissingHeaders` returns, in the order of that list: they
are an initial segment of its block numbers, and all of them when `Execute`
returns nil; when `MissingHeaders` fails, no block is fetched. `Execute` does
not sort the list, so the sequence is in ascending block order only if the
list `MissingHeaders` returns is. -/
theorem Execute_fetches_in_query_order {W Log Entity Model : Type}
    (transformer : FrobTransformer W Log Entity Model) (w : W) :
    (∀ missingHeaders : List core.Header,
      (transformer.Repository.MissingHeaders transformer.Config.StartingBlockNumber
        transformer.Config.EndingBlockNumber w).1 = .ok missingHeaders →
      fetchedBlocks (transformer.Execute w).2.trace <+:
        missingHeaders.map (fun h => h.BlockNumber) ∧
      ((transformer.Execute w).1 = none →
        fetchedBlocks (transformer.Execute w).2.trace =
          missingHeaders.map (fun h => h.BlockNumber))) ∧
    (∀ err : Error,
      (transformer.Repository.MissingHeaders transformer.Config.StartingBlockNumber
        transformer.Config.EndingBlockNumber w).1 = .error err →
      fetchedBlocks (transformer.Execute w).2.trace = []) := by
  have h1 : (transformer.callMissingHeaders transformer.Config.StartingBlockNumber
      transformer.Config.EndingBlockNumber { world := w, trace := [] }).1 =
      (transformer.Repository.MissingHeaders transformer.Config.StartingBlockNumber
        transformer.Config.EndingBlockNumber w).1 := rfl
  have h2 := callMissingHeaders_trace transformer transformer.Config.StartingBlockNumber
    transformer.Config.EndingBlockNumber { world := w, trace := [] }
  unfold FrobTransformer.Execute
  rcases hm : transformer.callMissingHeaders transformer.Config.StartingBlockNumber
    transformer.Config.EndingBlockNumber { world := w, trace := [] } with ⟨err | headers, r1⟩
  all_goals rw [hm] at h1 h2
  all_goals simp only at h1 h2 ⊢
  all_goals have hr1 : fetchedBlocks r1.trace = [] := by
              rw [h2]
              simp [fetchedBlocks, fetchedBlock]
  · constructor
    · intro missingHeaders hok
      rw [← h1] at hok
      cases hok
    · intro _ _
      exact hr1
  · obtain ⟨p, hp, htr, hall⟩ := executeHeaders_fetched transformer headers r1
    rw [hr1, List.nil_append] at htr
    constructor
    · intro missingHeaders hok
      rw [← h1] at hok
      cases hok
      rw [htr]
      exact ⟨hp, hall⟩
    · intro err herr
      rw [← h1] at herr
      cases herr

/-- C10, counterexample: when the query yields the header of block 5 before
the header of block 3, `Execute` fetches block 5 and then block 3. -/
theorem Execute_fetch_order_counterexample :
    fetchedBlocks ((storeTransformer ⟨0, 10⟩ exampleNoLogs).Execute
      ({ tables := exampleUnordered, nodeID := "node", faults := [] }, ())).2.trace = [5, 3] ∧
    ¬ List.Sorted (· ≤ ·)
      (fetchedBlocks ((storeTransformer ⟨0, 10⟩ exampleNoLogs).Execute
        ({ tables := exampleUnordered, nodeID := "node", faults := [] }, ())).2.trace) := by
  have h : fetchedBlocks ((storeTransformer ⟨0, 10⟩ exampleNoLogs).Execute
      ({ tables := exampleUnordered, nodeID := "node", faults := [] }, ())).2.trace = [5, 3] := by
    rfl
  refine ⟨h, ?_⟩
  rw [h]
  decide

/-! ### `Execute` over the store: what a run leaves behind -/

theorem upsertCheckedRows_keeps_checked (headerID id : Int) (rows : List CheckedHeaderRow)
    (h : (∃ c ∈ rows, c.header_id = id) ∧
      ∀ c ∈ rows, c.header_id = id → c.drip_file_repo_checked = true) :
    (∃ c ∈ upsertCheckedRows headerID true rows, c.header_id = id) ∧
    ∀ c ∈ upsertCheckedRows headerID true rows,
      c.header_id = id → c.drip_file_repo_checked = true := by
  obtain ⟨⟨c0, hc0, hid0⟩, hall⟩ := h
  unfold upsertCheckedRows
  split
  · constructor
    · exact ⟨_, List.mem_map.mpr ⟨c0, hc0, rfl⟩, by split <;> simpa using hid0⟩
    · intro d hd hdid
      obtain ⟨c, hc, rfl⟩ := List.mem_map.mp hd
      by_cases hch : c.header_id = headerID
      · simp [hch]
      · simp only [hch, if_false] at hdid ⊢
        exact hall c hc hdid
  · constructor
    · exact ⟨c0, List.mem_append.mpr (Or.inl hc0), hid0⟩
    · intro d hd hdid
      rcases List.mem_append.mp hd with hd | hd
      · exact hall d hd hdid
      · simp at hd
        simp [hd]

theorem StoreStep.refl (db : DB) : StoreStep db db :=
  ⟨rfl, rfl, fun _ h => h⟩

theorem StoreStep.trans {a b c : DB} (hab : StoreStep a b) (hbc : StoreStep b c) :
    StoreStep a c :=
  ⟨hbc.1.trans hab.1, hbc.2.1.trans hab.2.1, fun id h => hbc.2.2 id (hab.2.2 id h)⟩

theorem StoreStep.of_tables_eq {a b : DB} (hn : b.nodeID = a.nodeID)
    (ht : b.tables = a.tables) : StoreStep a b :=
  ⟨hn, by rw [ht], fun _ h => by rw [ht]; exact h⟩

theorem Create_step (db : DB) (headerID : Int) (models : List DripFileRepoModel) :
    StoreStep db (DripFileRepoRepository.Create db headerID models).2 ∧
    ((DripFileRepoRepository.Create db headerID models).1 = none →
      headerChecked (DripFileRepoRepository.Create db headerID models).2.tables headerID) := by
  obtain ⟨hn, hcase⟩ := Create_cases db headerID models
  rcases hcase with ⟨_, ht⟩ | ⟨herr, ht⟩
  · refine ⟨⟨hn, by rw [ht], ?_⟩, fun _ => ?_⟩
    · intro id hid
      rw [ht]
      exact upsertCheckedRows_keeps_checked headerID id db.tables.checked_headers hid
    · rw [ht]
      exact upsertCheckedRows_checked headerID db.tables.checked_headers
  · exact ⟨StoreStep.of_tables_eq hn ht, fun hnone => absurd hnone herr⟩

theorem MarkHeaderChecked_step (db : DB) (headerID : Int) :
    StoreStep db (DripFileRepoRepository.MarkHeaderChecked db headerID).2 ∧
    ((DripFileRepoRepository.MarkHeaderChecked db headerID).1 = none →
      headerChecked (DripFileRepoRepository.MarkHeaderChecked db headerID).2.tables headerID) := by
  have hnf := nextFault_tables db
  unfold DripFileRepoRepository.MarkHeaderChecked DB.Exec
  rcases hf : db.nextFault with ⟨_ | err, db1⟩
  · rw [hf] at hnf
    simp only at hnf ⊢
    refine ⟨⟨hnf.2, ?_, ?_⟩, fun _ => ?_⟩
    · simp [Stmt.apply, hnf.1]
    · intro id hid
      rw [hnf.1]
      exact upsertCheckedRows_keeps_checked headerID id db.tables.checked_headers hid
    · rw [hnf.1]
      exact upsertCheckedRows_checked headerID db.tables.checked_headers
  · rw [hf] at hnf
    simp only at hnf ⊢
    exact ⟨StoreStep.of_tables_eq hnf.2 hnf.1, fun h => by simp at h⟩

theorem StoreStep.of_eq {a b : DB} (h : b = a) : StoreStep a b := by
  subst h
  exact StoreStep.refl b

theorem store_executeHeader_step {X Log Entity : Type} (config : shared.TransformerConfig)
    (ext : External X Log Entity) (header : core.Header)
    (r : Run (DB × X) Log Entity DripFileRepoModel) :
    StoreStep r.world.1 ((storeTransformer config ext).executeHeader header r).2.world.1 ∧
    (((storeTransformer config ext).executeHeader header r).1 = none →
      headerChecked ((storeTransformer config ext).executeHeader header r).2.world.1.tables
        header.Id) := by
  unfold FrobTransformer.executeHeader
  have w1 : ((storeTransformer config ext).callFetchLogs header.BlockNumber r).2.world.1
      = r.world.1 := rfl
  rcases hf : (storeTransformer config ext).callFetchLogs header.BlockNumber r
    with ⟨err | logs, r1⟩
  · rw [hf] at w1
    exact ⟨StoreStep.of_eq w1, fun h => by simp at h⟩
  · rw [hf] at w1
    have s1 : StoreStep r.world.1 r1.world.1 := StoreStep.of_eq w1
    simp only
    have hmark : ∀ res : Option Error × Run (DB × X) Log Entity DripFileRepoModel,
        (if logs.length < 1 then (storeTransformer config ext).callMarkHeaderChecked header.Id r1
          else (none, r1)) = res → StoreStep r1.world.1 res.2.world.1 := by
      intro res hres
      split at hres
      · rw [← hres]
        exact (MarkHeaderChecked_step r1.world.1 header.Id).1
      · rw [← hres]
        exact StoreStep.refl _
    rcases hm : (if logs.length < 1 then
        (storeTransformer config ext).callMarkHeaderChecked header.Id r1 else (none, r1))
      with ⟨_ | err, r2⟩
    · have s2 : StoreStep r.world.1 r2.world.1 := s1.trans (hmark _ hm)
      simp only
      have w3 : ((storeTransformer config ext).callToEntities logs r2).2.world.1
          = r2.world.1 := rfl
      rcases he : (storeTransformer config ext).callToEntities logs r2
        with ⟨err | entities, r3⟩
      · rw [he] at w3
        exact ⟨s2.trans (StoreStep.of_eq w3), fun h => by simp at h⟩
      · rw [he] at w3
        have s3 : StoreStep r.world.1 r3.world.1 := s2.trans (StoreStep.of_eq w3)
        simp only
        have w4 : ((storeTransformer config ext).callToModels entities r3).2.world.1
            = r3.world.1 := rfl
        rcases hmo : (storeTransformer config ext).callToModels entities r3
          with ⟨err | models, r4⟩
        · rw [hmo] at w4
          exact ⟨s3.trans (StoreStep.of_eq w4), fun h => by simp at h⟩
        · rw [hmo] at w4
          have s4 : StoreStep r.world.1 r4.world.1 := s3.trans (StoreStep.of_eq w4)
          simp only
          have hcs := Create_step r4.world.1 header.Id models
          have w5 : ((storeTransformer config ext).callCreate header.Id models r4).2.world.1
              = (DripFileRepoRepository.Create r4.world.1 header.Id models).2 := rfl
          have e5 : ((storeTransformer config ext).callCreate header.Id models r4).1
              = (DripFileRepoRepository.Create r4.world.1 header.Id models).1 := rfl
          rcases hcr : (storeTransformer config ext).callCreate header.Id models r4
            with ⟨_ | err, r5⟩
          · rw [hcr] at w5 e5
            simp only at w5 e5 ⊢
            rw [← w5, ← e5] at hcs
            exact ⟨s4.trans hcs.1, fun _ => hcs.2 rfl⟩
          · rw [hcr] at w5
            simp only at w5 ⊢
            rw [← w5] at hcs
            exact ⟨s4.trans hcs.1, fun h => by simp at h⟩
    · exact ⟨s1.trans (hmark _ hm), fun h => by simp at h⟩

theorem store_executeHeaders_step {X Log Entity : Type} (config : shared.TransformerConfig)
    (ext : External X Log Entity) (headers : List core.Header) :
    ∀ r : Run (DB × X) Log Entity DripFileRepoModel,
      StoreStep r.world.1 ((storeTransformer config ext).executeHeaders headers r).2.world.1 ∧
      (((storeTransformer config ext).executeHeaders headers r).1 = none →
        ∀ hd ∈ headers,
          headerChecked
            ((storeTransformer config ext).executeHeaders headers r).2.world.1.tables hd.Id) := by
  induction headers with
  | nil =>
      intro r
      exact ⟨StoreStep.refl _, fun _ hd hhd => by simp at hhd⟩
  | cons header rest ih =>
      intro r
      unfold FrobTransformer.executeHeaders
      have h := store_executeHeader_step config ext header r
      rcases hh : (storeTransformer config ext).executeHeader header r with ⟨_ | err, r1⟩
      · rw [hh] at h
        simp only at h ⊢
        obtain ⟨hstep, hall⟩ := ih r1
        refine ⟨h.1.trans hstep, ?_⟩
        intro hnone hd hhd
        rcases List.mem_cons.mp hhd with rfl | hrest
        · exact hstep.2.2 _ (h.2 trivial)
        · exact hall hnone hd hrest
      · rw [hh] at h
        simp only at h ⊢
        exact ⟨h.1, fun hnone => by simp at hnone⟩

theorem missingHeadersQuery_nil_of_checked (t : Tables) (s e : Int) (nodeID : String)
    (h : ∀ r ∈ t.headers, s ≤ r.block_number → r.block_number ≤ e →
      r.eth_node_fingerprint = nodeID → headerChecked t r.id) :
    missingHeadersQuery t s e nodeID = [] := by
  rw [List.eq_nil_iff_forall_not_mem]
  intro hd hmem
  rw [mem_missingHeadersQuery] at hmem
  obtain ⟨r, hr, _, hs, he, hfp, hcase⟩ := hmem
  obtain ⟨⟨c0, hc0, hid0⟩, hall⟩ := h r hr hs he hfp
  rcases hcase with hnone | ⟨c, hc, hid, hflag⟩
  · exact hnone c0 hc0 hid0
  · have := hall c hc hid
    rw [hflag] at this
    cases this

theorem checked_or_missing (t : Tables) (s e : Int) (nodeID : String) (r : HeaderRow)
    (hr : r ∈ t.headers) (hs : s ≤ r.block_number) (he : r.block_number ≤ e)
    (hfp : r.eth_node_fingerprint = nodeID) :
    headerChecked t r.id ∨
    ({ Id := r.id, BlockNumber := r.block_number } : core.Header) ∈
      missingHeadersQuery t s e nodeID := by
  by_cases hch : headerChecked t r.id
  · exact Or.inl hch
  · right
    rw [mem_missingHeadersQuery]
    refine ⟨r, hr, rfl, hs, he, hfp, ?_⟩
    unfold headerChecked at hch
    by_contra hcon
    apply hch
    push_neg at hcon
    obtain ⟨⟨c0, hc0, hid0⟩, hall⟩ := hcon
    refine ⟨⟨c0, hc0, hid0⟩, ?_⟩
    intro c hc hid
    have := hall c hc hid
    cases hfl : c.drip_file_repo_checked
    · exact absurd hfl this
    · rfl

/-- A run of `Execute` over the store that returns nil leaves no header of the
range missing. -/
theorem store_Execute_nil_checks_all {X Log Entity : Type} (config : shared.TransformerConfig)
    (ext : External X Log Entity) (db : DB) (x : X)
    (r1 : Run (DB × X) Log Entity DripFileRepoModel)
    (hfirst : (storeTransformer config ext).Execute (db, x) = (none, r1)) :
    missingHeadersQuery r1.world.1.tables config.StartingBlockNumber config.EndingBlockNumber
      r1.world.1.nodeID = [] := by
  have hc := store_callMissingHeaders config ext db x config.StartingBlockNumber
    config.EndingBlockNumber
  obtain ⟨hs, hst, hsn⟩ :=
    MissingHeaders_spec db config.StartingBlockNumber config.EndingBlockNumber
  rcases hm : (storeTransformer config ext).callMissingHeaders config.StartingBlockNumber
    config.EndingBlockNumber { world := (db, x), trace := [] } with ⟨err | headers, r0⟩
  · rw [store_Execute_error config ext db x err r0 hm] at hfirst
    simp at hfirst
  · rw [store_Execute_ok config ext db x headers r0 hm] at hfirst
    rw [hm] at hc
    obtain ⟨hc1, hc2⟩ := hc
    simp only at hc1 hc2
    have hq : headers = missingHeadersQuery db.tables config.StartingBlockNumber
        config.EndingBlockNumber db.nodeID := by
      rcases hs with hs | ⟨err, hs⟩
      · rw [hs] at hc1
        exact Except.ok.inj hc1
      · rw [hs] at hc1
        cases hc1
    have hr0t : r0.world.1.tables = db.tables := by rw [hc2]; exact hst
    have hr0n : r0.world.1.nodeID = db.nodeID := by rw [hc2]; exact hsn
    obtain ⟨hstep, hall⟩ := store_executeHeaders_step config ext headers r0
    rw [hfirst] at hstep hall
    simp only [true_implies] at hall
    obtain ⟨hn, hh, hmono⟩ := hstep
    apply missingHeadersQuery_nil_of_checked
    intro r hr hlo hhi hfp
    rw [hh, hr0t] at hr
    rw [hn, hr0n] at hfp
    rcases checked_or_missing db.tables config.StartingBlockNumber config.EndingBlockNumber
      db.nodeID r hr hlo hhi hfp with hch | hmiss
    · apply hmono
      rw [hr0t]
      exact hch
    · rw [← hq] at hmiss
      exact hall _ hmiss

/-- A run of `Execute` over a store with no missing header makes the
`MissingHeaders` call and nothing else. -/
theorem store_Execute_nothing_missing {X Log Entity : Type} (config : shared.TransformerConfig)
    (ext : External X Log Entity) (db : DB) (x : X)
    (hnil : missingHeadersQuery db.tables config.StartingBlockNumber config.EndingBlockNumber
      db.nodeID = []) :
    ((storeTransformer config ext).Execute (db, x)).2.trace =
      [{ call := .MissingHeaders config.StartingBlockNumber config.EndingBlockNumber,
         err := ((storeTransformer config ext).Execute (db, x)).1 }] ∧
    ((storeTransformer config ext).Execute (db, x)).2.world.1.tables = db.tables ∧
    ((storeTransformer config ext).Execute (db, x)).1 =
      errOf (DripFileRepoRepository.MissingHeaders db config.StartingBlockNumber
        config.EndingBlockNumber).1 := by
  have hc := store_callMissingHeaders config ext db x config.StartingBlockNumber
    config.EndingBlockNumber
  obtain ⟨hs, hst, _⟩ :=
    MissingHeaders_spec db config.StartingBlockNumber config.EndingBlockNumber
  rcases hm : (storeTransformer config ext).callMissingHeaders config.StartingBlockNumber
    config.EndingBlockNumber { world := (db, x), trace := [] } with ⟨err | headers, r0⟩
  · rw [store_Execute_error config ext db x err r0 hm]
    rw [hm] at hc
    obtain ⟨hc1, hc2⟩ := hc
    simp only at hc1 hc2 ⊢
    rw [hc2, ← hc1]
    exact ⟨rfl, hst, rfl⟩
  · rw [store_Execute_ok config ext db x headers r0 hm]
    rw [hm] at hc
    obtain ⟨hc1, hc2⟩ := hc
    simp only at hc1 hc2
    have hq : headers = [] := by
      rcases hs with hs | ⟨err, hs⟩
      · rw [hs, hnil] at hc1
        exact Except.ok.inj hc1
      · rw [hs] at hc1
        cases hc1
    subst hq
    unfold FrobTransformer.executeHeaders
    simp only
    rw [hc2, ← hc1]
    exact ⟨rfl, hst, rfl⟩

/-- C9. If `Execute` over the store (a repository that does what the
drip_file repository does, any fetcher and converter) returns nil, then a
second `Execute` over the same range, started from the tables the first run
left, with any fetcher, converter and connection faults, finds no missing
header: the `MissingHeaders` query on those tables is empty, so whenever it
answers its answer is the empty list; the second run makes the
`MissingHeaders` call and no other call (no `FetchLogs`, `MarkHeaderChecked` or
`Create`), leaves the tables (model rows and checked markers) as they were,
and returns nil unless the query itself fails. -/
theorem Execute_twice_is_idempotent {X Log Entity X2 Log2 Entity2 : Type}
    (config : shared.TransformerConfig) (ext : External X Log Entity) (db : DB) (x : X)
    (r1 : Run (DB × X) Log Entity DripFileRepoModel)
    (hfirst : (storeTransformer config ext).Execute (db, x) = (none, r1))
    (ext2 : External X2 Log2 Entity2) (x2 : X2) (faults2 : List (Option Error)) :
    missingHeadersQuery r1.world.1.tables config.StartingBlockNumber config.EndingBlockNumber
      r1.world.1.nodeID = [] ∧
    (∀ hs, (DripFileRepoRepository.MissingHeaders
        { tables := r1.world.1.tables, nodeID := r1.world.1.nodeID, faults := faults2 }
        config.StartingBlockNumber config.EndingBlockNumber).1 = .ok hs → hs = []) ∧
    ((storeTransformer config ext2).Execute
        ({ tables := r1.world.1.tables, nodeID := r1.world.1.nodeID, faults := faults2 },
          x2)).2.trace =
      [{ call := .MissingHeaders config.StartingBlockNumber config.EndingBlockNumber,
         err := ((storeTransformer config ext2).Execute
           ({ tables := r1.world.1.tables, nodeID := r1.world.1.nodeID, faults := faults2 },
             x2)).1 }] ∧
    ((storeTransformer config ext2).Execute
        ({ tables := r1.world.1.tables, nodeID := r1.world.1.nodeID, faults := faults2 },
          x2)).2.world.1.tables = r1.world.1.tables ∧
    ((storeTransformer config ext2).Execute
        ({ tables := r1.world.1.tables, nodeID := r1.world.1.nodeID, faults := faults2 },
          x2)).1 =
      errOf (DripFileRepoRepository.MissingHeaders
        { tables := r1.world.1.tables, nodeID := r1.world.1.nodeID, faults := faults2 }
        config.StartingBlockNumber config.EndingBlockNumber).1 := by
  have hnil := store_Execute_nil_checks_all config ext db x r1 hfirst
  obtain ⟨htrace, htables, hres⟩ := store_Execute_nothing_missing config ext2
    { tables := r1.world.1.tables, nodeID := r1.world.1.nodeID, faults := faults2 } x2 hnil
  refine ⟨hnil, ?_, htrace, htables, hres⟩
  intro hs hok
  rcases (MissingHeaders_spec
    { tables := r1.world.1.tables, nodeID := r1.world.1.nodeID, faults := faults2 }
    config.StartingBlockNumber config.EndingBlockNumber).1 with h | ⟨err, h⟩
  · rw [h] at hok
    simp only at hok
    rw [hnil] at hok
    exact (Except.ok.inj hok).symm
  · rw [h] at hok
    cases hok

/-- Witness for C9: the first run over blocks 10..20 of `exampleStore`, with
two logs at block 12, returns nil and stores two model rows; the second run
makes one call, `MissingHeaders`, and keeps the tables. -/
theorem Execute_twice_is_idempotent_witness :
    (storeTransformer ⟨10, 20⟩ exampleLogsAt12).Execute
        ({ tables := exampleStore, nodeID := "node", faults := [] }, ())
      = (none, exampleFirstRun) ∧
    exampleFirstRun.world.1.tables.drip_file_repo =
      [⟨3, "vow", Numeric.ofText "1", 0, []⟩, ⟨3, "vow", Numeric.ofText "1", 1, []⟩] ∧
    ((storeTransformer ⟨10, 20⟩ exampleNoLogs).Execute
        ({ tables := exampleFirstRun.world.1.tables, nodeID := exampleFirstRun.world.1.nodeID,
           faults := [] }, ())).2.trace =
      [{ call := .MissingHeaders 10 20,
         err := ((storeTransformer ⟨10, 20⟩ exampleNoLogs).Execute
           ({ tables := exampleFirstRun.world.1.tables,
              nodeID := exampleFirstRun.world.1.nodeID, faults := [] }, ())).1 }] ∧
    ((storeTransformer ⟨10, 20⟩ exampleNoLogs).Execute
        ({ tables := exampleFirstRun.world.1.tables, nodeID := exampleFirstRun.world.1.nodeID,
           faults := [] }, ())).2.world.1.tables = exampleFirstRun.world.1.tables :=
  ⟨by rfl, by rfl,
   (Execute_twice_is_idempotent ⟨10, 20⟩ exampleLogsAt12
      { tables := exampleStore, nodeID := "node", faults := [] } () exampleFirstRun (by rfl)
      exampleNoLogs () []).2.2.1,
   (Execute_twice_is_idempotent ⟨10, 20⟩ exampleLogsAt12
      { tables := exampleStore, nodeID := "node", faults := [] } () exampleFirstRun (by rfl)
      exampleNoLogs () []).2.2.2.1⟩

/-! ### `PitFileIlkConverter` -/

theorem trimNul_spec (t : List Nat) : NulTrimmed t (trimNul t) := by
  unfold NulTrimmed trimNul
  set p : Nat → Bool := fun x => x == 0 with hp
  set d := t.dropWhile p with hd
  have hsplit : d = d.rdropWhile p ++ (d.reverse.takeWhile p).reverse := by
    have h1 := List.takeWhile_append_dropWhile p d.reverse
    have h2 := congrArg List.reverse h1
    rw [List.reverse_append, List.reverse_reverse] at h2
    rw [List.rdropWhile]
    exact h2.symm
  refine ⟨t.takeWhile p, (d.reverse.takeWhile p).reverse, ?_, ?_, ?_, ?_, ?_⟩
  · rw [List.append_assoc, ← hsplit, hd, List.takeWhile_append_dropWhile]
  · intro b hb
    have := List.mem_takeWhile_imp hb
    simpa [hp] using this
  · intro b hb
    have := List.mem_takeWhile_imp (List.mem_reverse.mp hb)
    simpa [hp] using this
  · intro hhead
    have hne : d.rdropWhile p ≠ [] := by
      intro h
      rw [h] at hhead
      simp at hhead
    obtain ⟨a, rest, hcons⟩ := List.exists_cons_of_ne_nil hne
    rw [hcons] at hhead
    simp only [List.head?_cons, Option.some.injEq] at hhead
    rw [hcons] at hsplit
    have hnot := List.head?_dropWhile_not p t
    rw [← hd, hsplit] at hnot
    simp only [List.cons_append, List.head?_cons] at hnot
    rw [hhead] at hnot
    simp [hp] at hnot
  · intro hlast
    have hne : d.rdropWhile p ≠ [] := by
      intro h
      rw [h] at hlast
      simp at hlast
    have hnot := List.rdropWhile_last_not p d hne
    rw [List.getLast?_eq_getLast _ hne] at hlast
    simp only [Option.some.injEq] at hlast
    rw [hlast] at hnot
    simp [hp] at hnot

theorem SetBytes_foldl (buf : List Nat) (acc : Nat) :
    buf.foldl (fun acc b => acc * 256 + b) acc = acc * 256 ^ buf.length + bigEndianValue buf := by
  induction buf generalizing acc with
  | nil => simp [bigEndianValue]
  | cons b rest ih =>
      rw [List.foldl_cons, ih, bigEndianValue, List.length_cons]
      ring

theorem SetBytes_eq_bigEndianValue (buf : List Nat) : SetBytes buf = bigEndianValue buf := by
  unfold SetBytes
  rw [SetBytes_foldl]
  simp

theorem sliceFrom_spec (a : List Nat) (n : Int) (payload : List Nat)
    (h : sliceFrom a ((a.length : Int) - n) = some payload) :
    payload <:+ a ∧ (payload.length : Int) = n := by
  unfold sliceFrom at h
  split at h
  · rename_i hb
    simp only [Option.some.injEq] at h
    subst h
    refine ⟨List.drop_suffix _ _, ?_⟩
    rw [List.length_drop]
    omega
  · cases h

theorem getData_ok (deps : PitFileDeps) (dataBytes what : List Nat) (data : String)
    (h : PitFileIlkConverter.getData deps dataBytes what = (data, none)) :
    (what = spot ∧ data = deps.ConvertToRay (toString (bigEndianValue dataBytes))) ∨
    (what = line ∧ data = deps.ConvertToWad (toString (bigEndianValue dataBytes))) := by
  unfold PitFileIlkConverter.getData at h
  rw [SetBytes_eq_bigEndianValue] at h
  simp only at h
  split at h
  · rename_i hs
    simp only [Prod.mk.injEq, and_true] at h
    exact Or.inl ⟨hs, h.symm⟩
  · split at h
    · rename_i hl
      simp only [Prod.mk.injEq, and_true] at h
      exact Or.inr ⟨hl, h.symm⟩
    · simp at h

theorem getData_error_iff (deps : PitFileDeps) (dataBytes what : List Nat) :
    (∃ err, (PitFileIlkConverter.getData deps dataBytes what).2 = some err) ↔
      what ≠ spot ∧ what ≠ line := by
  unfold PitFileIlkConverter.getData
  simp only
  split
  · rename_i hs
    simp [hs]
  · rename_i hs
    split
    · rename_i hl
      simp [hl]
    · rename_i hl
      simp [hs, hl]

theorem toModelsLoop_cons_ok (deps : PitFileDeps) (ethLog : types.Log)
    (rest : List types.Log) (acc ms : List PitFileIlkModel)
    (h : PitFileIlkConverter.toModelsLoop deps (ethLog :: rest) acc = some (ms, none)) :
    ∃ m, DecodedFrom deps ethLog m ∧
      PitFileIlkConverter.toModelsLoop deps rest (acc ++ [m]) = some (ms, none) := by
  rw [PitFileIlkConverter.toModelsLoop] at h
  split at h
  · simp at h
  · split at h
    · cases h
    · rename_i topic2 ht2
      split at h
      · cases h
      · rename_i topic3 ht3
        simp only at h
        split at h
        · cases h
        · rename_i dataBytes hsl
          split at h
          · simp at h
          · rename_i data hgd
            split at h
            · simp at h
            · rename_i raw hraw
              obtain ⟨hsuf, hlen⟩ := sliceFrom_spec _ _ _ hsl
              exact ⟨_, ⟨topic2, topic3, dataBytes, ht2, ht3, trimNul_spec topic2,
                trimNul_spec topic3, hsuf, hlen, getData_ok deps _ _ _ hgd, rfl, rfl, hraw⟩, h⟩

theorem toModelsLoop_ok (deps : PitFileDeps) (logs : List types.Log) :
    ∀ acc ms : List PitFileIlkModel,
      PitFileIlkConverter.toModelsLoop deps logs acc = some (ms, none) →
      ∃ ms', ms = acc ++ ms' ∧ List.Forall₂ (DecodedFrom deps) logs ms' := by
  induction logs with
  | nil =>
      intro acc ms h
      rw [PitFileIlkConverter.toModelsLoop] at h
      simp only [Option.some.injEq, Prod.mk.injEq, and_true] at h
      exact ⟨[], by simp [h], List.Forall₂.nil⟩
  | cons ethLog rest ih =>
      intro acc ms h
      obtain ⟨m, hm, hrest⟩ := toModelsLoop_cons_ok deps ethLog rest acc ms h
      obtain ⟨ms', hms, hall⟩ := ih (acc ++ [m]) ms hrest
      exact ⟨m :: ms', by simp [hms], List.Forall₂.cons hm hall⟩

theorem verifyLog_none_iff (deps : PitFileDeps) (log : types.Log) :
    PitFileIlkConverter.verifyLog deps log = none ↔
      4 ≤ log.Topics.length ∧ deps.DataItemLength ≤ (log.Data.length : Int) := by
  unfold PitFileIlkConverter.verifyLog
  split
  · simp only [reduceCtorEq, false_iff, not_and]
    omega
  · split
    · simp only [reduceCtorEq, false_iff, not_and]
      omega
    · simp only [true_iff]
      omega

/-- After `verifyLog` accepts a log, the two topic reads and the slice of
`ToModels` are in range. -/
theorem verified_reads (deps : PitFileDeps) (h0 : 0 ≤ deps.DataItemLength) (log : types.Log)
    (hv : PitFileIlkConverter.verifyLog deps log = none) :
    ∃ topic2 topic3 dataBytes, log.Topics[2]? = some topic2 ∧ log.Topics[3]? = some topic3 ∧
      sliceFrom log.Data ((log.Data.length : Int) - deps.DataItemLength) = some dataBytes := by
  obtain ⟨ht, hd⟩ := (verifyLog_none_iff deps log).mp hv
  refine ⟨log.Topics[2], log.Topics[3],
    log.Data.drop ((log.Data.length : Int) - deps.DataItemLength).toNat,
    List.getElem?_eq_getElem (by omega), List.getElem?_eq_getElem (by omega), ?_⟩
  unfold sliceFrom
  rw [if_pos ⟨by omega, by omega⟩]

theorem toModelsLoop_cons_rejected (deps : PitFileDeps) (h0 : 0 ≤ deps.DataItemLength)
    (ethLog : types.Log) (rest : List types.Log) (acc : List PitFileIlkModel)
    (hrej : Rejected deps ethLog) :
    ∃ err, PitFileIlkConverter.toModelsLoop deps (ethLog :: rest) acc = some ([], some err) := by
  rw [PitFileIlkConverter.toModelsLoop]
  rcases hv : PitFileIlkConverter.verifyLog deps ethLog with _ | err
  · obtain ⟨topic2, topic3, dataBytes, ht2, ht3, hsl⟩ := verified_reads deps h0 ethLog hv
    obtain ⟨ht, hd⟩ := (verifyLog_none_iff deps ethLog).mp hv
    have hwhat : trimNul topic3 ≠ spot ∧ trimNul topic3 ≠ line := by
      rcases hrej with h | h | ⟨t, ht, hne⟩
      · omega
      · omega
      · rw [ht3] at ht
        cases ht
        exact hne
    obtain ⟨err, herr⟩ := (getData_error_iff deps dataBytes (trimNul topic3)).mpr hwhat
    simp only [ht2, ht3, hsl]
    rcases hgd : PitFileIlkConverter.getData deps dataBytes (trimNul topic3) with ⟨data, _ | e⟩
    · rw [hgd] at herr
      cases herr
    · exact ⟨e, rfl⟩
  · exact ⟨err, rfl⟩

theorem toModelsLoop_cons_accepted (deps : PitFileDeps) (h0 : 0 ≤ deps.DataItemLength)
    (hjson : ∀ log, ∃ raw, deps.jsonMarshal log = .ok raw)
    (ethLog : types.Log) (rest : List types.Log) (acc : List PitFileIlkModel)
    (hacc : ¬ Rejected deps ethLog) :
    ∃ m, PitFileIlkConverter.toModelsLoop deps (ethLog :: rest) acc =
      PitFileIlkConverter.toModelsLoop deps rest (acc ++ [m]) := by
  unfold Rejected at hacc
  push_neg at hacc
  obtain ⟨ht, hd, hwhat⟩ := hacc
  have hv : PitFileIlkConverter.verifyLog deps ethLog = none :=
    (verifyLog_none_iff deps ethLog).mpr ⟨by omega, by omega⟩
  obtain ⟨topic2, topic3, dataBytes, ht2, ht3, hsl⟩ := verified_reads deps h0 ethLog hv
  obtain ⟨raw, hraw⟩ := hjson ethLog
  rw [PitFileIlkConverter.toModelsLoop]
  simp only [hv, ht2, ht3, hsl]
  rcases hgd : PitFileIlkConverter.getData deps dataBytes (trimNul topic3) with ⟨data, _ | e⟩
  · simp only [hraw]
    exact ⟨_, rfl⟩
  · exfalso
    have := (getData_error_iff deps dataBytes (trimNul topic3)).mp ⟨e, by rw [hgd]⟩
    have hor : trimNul topic3 = spot ∨ trimNul topic3 = line := by
      by_contra hcon
      push_neg at hcon
      exact hcon.2 (hwhat topic3 ht3 hcon.1)
    rcases hor with h | h
    · exact this.1 h
    · exact this.2 h

theorem toModelsLoop_error_nil (deps : PitFileDeps) (logs : List types.Log) :
    ∀ (acc ms : List PitFileIlkModel) (err : Error),
      PitFileIlkConverter.toModelsLoop deps logs acc = some (ms, some err) → ms = [] := by
  induction logs with
  | nil =>
      intro acc ms err h
      rw [PitFileIlkConverter.toModelsLoop] at h
      simp at h
  | cons ethLog rest ih =>
      intro acc ms err h
      rw [PitFileIlkConverter.toModelsLoop] at h
      split at h
      · simp only [Option.some.injEq, Prod.mk.injEq] at h
        exact h.1.symm
      · split at h
        · cases h
        · split at h
          · cases h
          · simp only at h
            split at h
            · cases h
            · split at h
              · simp only [Option.some.injEq, Prod.mk.injEq] at h
                exact h.1.symm
              · split at h
                · simp only [Option.some.injEq, Prod.mk.injEq] at h
                  exact h.1.symm
                · exact ih _ ms err h

theorem toModelsLoop_error_iff (deps : PitFileDeps) (h0 : 0 ≤ deps.DataItemLength)
    (hjson : ∀ log, ∃ raw, deps.jsonMarshal log = .ok raw) (logs : List types.Log) :
    ∀ acc : List PitFileIlkModel,
      (∃ ms err, PitFileIlkConverter.toModelsLoop deps logs acc = some (ms, some err)) ↔
        ∃ log ∈ logs, Rejected deps log := by
  induction logs with
  | nil =>
      intro acc
      rw [PitFileIlkConverter.toModelsLoop]
      simp
  | cons ethLog rest ih =>
      intro acc
      by_cases hrej : Rejected deps ethLog
      · obtain ⟨err, herr⟩ := toModelsLoop_cons_rejected deps h0 ethLog rest acc hrej
        constructor
        · intro _
          exact ⟨ethLog, by simp, hrej⟩
        · intro _
          exact ⟨[], err, herr⟩
      · obtain ⟨m, hm⟩ := toModelsLoop_cons_accepted deps h0 hjson ethLog rest acc hrej
        rw [hm, ih (acc ++ [m])]
        constructor
        · rintro ⟨log, hlog, hr⟩
          exact ⟨log, List.mem_cons_of_mem _ hlog, hr⟩
        · rintro ⟨log, hlog, hr⟩
          rcases List.mem_cons.mp hlog with rfl | hlog
          · exact absurd hr hrej
          · exact ⟨log, hlog, hr⟩

/-- C7. With `constants.DataItemLength` non-negative and `json.Marshal` total
on logs, `PitFileIlkConverter.ToModels` returns an error exactly when some log
of the list has fewer than 4 topics, or data shorter than `DataItemLength`
bytes, or a NUL-trimmed fourth topic that is neither `"spot"` nor `"line"`;
and whenever it returns an error the model list it returns is nil, whatever
the logs before the failing one. -/
theorem ToModels_error_iff_rejected (deps : PitFileDeps) (h0 : 0 ≤ deps.DataItemLength)
    (hjson : ∀ log, ∃ raw, deps.jsonMarshal log = .ok raw) (ethLogs : List types.Log) :
    ((∃ models err, PitFileIlkConverter.ToModels deps ethLogs = some (models, some err)) ↔
      ∃ log ∈ ethLogs, Rejected deps log) ∧
    (∀ models err,
      PitFileIlkConverter.ToModels deps ethLogs = some (models, some err) → models = []) := by
  unfold PitFileIlkConverter.ToModels
  exact ⟨toModelsLoop_error_iff deps h0 hjson ethLogs [],
    fun models err h => toModelsLoop_error_nil deps ethLogs [] models err h⟩

/-- Witness for C7: a valid log followed by a log with three topics; the call
returns the error of `verifyLog` and a nil model list. -/
theorem ToModels_error_iff_rejected_witness :
    (0 : Int) ≤ exampleDeps.DataItemLength ∧
    (∀ log, ∃ raw, exampleDeps.jsonMarshal log = .ok raw) ∧
    PitFileIlkConverter.ToModels exampleDeps [exampleSpotLog, exampleShortLog]
      = some ([], some "log missing topics") ∧
    ((∃ models err, PitFileIlkConverter.ToModels exampleDeps [exampleSpotLog, exampleShortLog]
        = some (models, some err)) ↔
      ∃ log ∈ [exampleSpotLog, exampleShortLog], Rejected exampleDeps log) :=
  ⟨by decide, fun _ => ⟨[], rfl⟩, by rfl,
   (ToModels_error_iff_rejected exampleDeps (by decide) (fun _ => ⟨[], rfl⟩)
      [exampleSpotLog, exampleShortLog]).1⟩

/-- C8. When `PitFileIlkConverter.ToModels` succeeds, the result has one model
per log, in input order, and the i-th model is the decoding of the i-th log:
`Ilk` and `What` are `Topics[2]` and `Topics[3]` without their leading and
trailing NUL bytes, `Data` is the big-endian unsigned integer of the last
`DataItemLength` bytes of the data, converted with `shared.ConvertToRay` when
`What` is `"spot"` and with `shared.ConvertToWad` when it is `"line"`, and
`LogIndex` and `TransactionIndex` are the log's `Index` and `TxIndex`. -/
theorem ToModels_decodes_each_log (deps : PitFileDeps) (ethLogs : List types.Log)
    (models : List PitFileIlkModel)
    (hok : PitFileIlkConverter.ToModels deps ethLogs = some (models, none)) :
    models.length = ethLogs.length ∧
    ∀ (i : Nat) (h1 : i < ethLogs.length) (h2 : i < models.length),
      DecodedFrom deps (ethLogs.get ⟨i, h1⟩) (models.get ⟨i, h2⟩) := by
  unfold PitFileIlkConverter.ToModels at hok
  obtain ⟨ms', hms, hall⟩ := toModelsLoop_ok deps ethLogs [] models hok
  rw [List.nil_append] at hms
  subst hms
  obtain ⟨hlen, hget⟩ := List.forall₂_iff_get.mp hall
  exact ⟨hlen.symm, hget⟩

/-- Witness for C8: the spot log decodes to the ilk `ETH`, the tag `"spot"`
and the value 256 at the Ray scale. -/
theorem ToModels_decodes_each_log_witness :
    PitFileIlkConverter.ToModels exampleDeps [exampleSpotLog]
      = some ([exampleSpotModel], none) ∧
    [exampleSpotModel].length = [exampleSpotLog].length ∧
    ∀ (i : Nat) (h1 : i < [exampleSpotLog].length) (h2 : i < [exampleSpotModel].length),
      DecodedFrom exampleDeps ([exampleSpotLog].get ⟨i, h1⟩) ([exampleSpotModel].get ⟨i, h2⟩) :=
  ⟨by rfl,
   ToModels_decodes_each_log exampleDeps [exampleSpotLog] [exampleSpotModel] (by rfl)⟩

/-! ### `MarkHeaderChecked` -/

/-- The two outcomes of `MarkHeaderChecked`: nil with the marker upserted, or
an error with the tables as they were. -/
theorem MarkHeaderChecked_cases (db : DB) (headerID : Int) :
    ((DripFileRepoRepository.MarkHeaderChecked db headerID).1 = none ∧
      (DripFileRepoRepository.MarkHeaderChecked db headerID).2.tables =
        { headers := db.tables.headers
          checked_headers := upsertCheckedRows headerID true db.tables.checked_headers
          drip_file_repo := db.tables.drip_file_repo }) ∨
    ((DripFileRepoRepository.MarkHeaderChecked db headerID).1 ≠ none ∧
      (DripFileRepoRepository.MarkHeaderChecked db headerID).2.tables = db.tables) := by
  have hnf := nextFault_tables db
  unfold DripFileRepoRepository.MarkHeaderChecked DB.Exec
  rcases hf : db.nextFault with ⟨_ | err, db1⟩
  · rw [hf] at hnf
    simp only at hnf ⊢
    left
    refine ⟨trivial, ?_⟩
    rw [hnf.1]
    rfl
  · rw [hf] at hnf
    simp only at hnf ⊢
    right
    exact ⟨by simp, hnf.1⟩

theorem filter_updated_of_absent (headerID : Int) (rows : List CheckedHeaderRow)
    (habs : ∀ c ∈ rows, c.header_id ≠ headerID) :
    (rows.map (fun r =>
      if r.header_id = headerID then { r with drip_file_repo_checked := true } else r)).filter
        (fun c => c.header_id = headerID) = [] := by
  rw [List.filter_eq_nil_iff]
  intro d hd
  obtain ⟨c, hc, rfl⟩ := List.mem_map.mp hd
  have := habs c hc
  simp [this]

theorem filter_updated_of_present (headerID : Int) (rows : List CheckedHeaderRow)
    (hkey : (rows.map (fun c => c.header_id)).Nodup)
    (hpres : ∃ c ∈ rows, c.header_id = headerID) :
    (rows.map (fun r =>
      if r.header_id = headerID then { r with drip_file_repo_checked := true } else r)).filter
        (fun c => c.header_id = headerID) = [⟨headerID, true⟩] := by
  induction rows with
  | nil =>
      obtain ⟨c, hc, _⟩ := hpres
      simp at hc
  | cons c rest ih =>
      rw [List.map_cons, List.nodup_cons] at hkey
      obtain ⟨hnot, hrest⟩ := hkey
      by_cases hid : c.header_id = headerID
      · have habs : ∀ d ∈ rest, d.header_id ≠ headerID := by
          intro d hd hdid
          apply hnot
          rw [hid, ← hdid]
          exact List.mem_map.mpr ⟨d, hd, rfl⟩
        rw [List.map_cons, List.filter_cons]
        simp only [hid, if_true, decide_True]
        rw [filter_updated_of_absent headerID rest habs]
      · have hpres' : ∃ d ∈ rest, d.header_id = headerID := by
          obtain ⟨d, hd, hdid⟩ := hpres
          rcases List.mem_cons.mp hd with rfl | hd
          · exact absurd hdid hid
          · exact ⟨d, hd, hdid⟩
        rw [List.map_cons, List.filter_cons]
        simp only [hid, if_false, decide_False]
        exact ih hrest hpres'

theorem upsertCheckedRows_filter_self (headerID : Int) (rows : List CheckedHeaderRow)
    (hkey : (rows.map (fun c => c.header_id)).Nodup) :
    (upsertCheckedRows headerID true rows).filter (fun c => c.header_id = headerID)
      = [⟨headerID, true⟩] := by
  unfold upsertCheckedRows
  split
  · rename_i hany
    simp only [List.any_eq_true, beq_iff_eq] at hany
    exact filter_updated_of_present headerID rows hkey hany
  · rename_i hany
    simp only [List.any_eq_true, beq_iff_eq, not_exists, not_and] at hany
    rw [List.filter_append]
    have : rows.filter (fun c => c.header_id = headerID) = [] := by
      rw [List.filter_eq_nil_iff]
      intro c hc
      simpa using hany c hc
    rw [this]
    simp

theorem filter_others_of_updated (headerID : Int) (flag : Bool)
    (rows : List CheckedHeaderRow) :
    (rows.map (fun r =>
      if r.header_id = headerID then { r with drip_file_repo_checked := flag } else r)).filter
        (fun c => c.header_id ≠ headerID) = rows.filter (fun c => c.header_id ≠ headerID) := by
  induction rows with
  | nil => rfl
  | cons c rest ih =>
      by_cases hid : c.header_id = headerID
      · simp only [List.map_cons, List.filter_cons, hid, if_true, ne_eq, not_true_eq_false,
          decide_False]
        exact ih
      · simp only [List.map_cons, List.filter_cons, hid, if_false, ne_eq, not_false_eq_true,
          decide_True, if_true]
        rw [ih]

theorem upsertCheckedRows_filter_others (headerID : Int) (flag : Bool)
    (rows : List CheckedHeaderRow) :
    (upsertCheckedRows headerID flag rows).filter (fun c => c.header_id ≠ headerID)
      = rows.filter (fun c => c.header_id ≠ headerID) := by
  unfold upsertCheckedRows
  split
  · exact filter_others_of_updated headerID flag rows
  · rw [List.filter_append]
    simp

theorem upsertCheckedRows_nodup (headerID : Int) (flag : Bool) (rows : List CheckedHeaderRow)
    (hkey : (rows.map (fun c => c.header_id)).Nodup) :
    ((upsertCheckedRows headerID flag rows).map (fun c => c.header_id)).Nodup := by
  unfold upsertCheckedRows
  split
  · have : (rows.map (fun r =>
        if r.header_id = headerID then { r with drip_file_repo_checked := flag } else r)).map
          (fun c => c.header_id) = rows.map (fun c => c.header_id) := by
      rw [List.map_map]
      apply List.map_congr_left
      intro c _
      simp only [Function.comp]
      split <;> rfl
    rw [this]
    exact hkey
  · rename_i hany
    simp only [List.any_eq_true, beq_iff_eq, not_exists, not_and] at hany
    rw [List.map_append, List.map_singleton]
    apply List.Nodup.append hkey (List.nodup_singleton _)
    rw [List.disjoint_singleton]  
    intro hmem
    obtain ⟨c, hc, hcid⟩ := List.mem_map.mp hmem
    exact hany c hc hcid

theorem upsertCheckedRows_idempotent (headerID : Int) (rows : List CheckedHeaderRow) :
    upsertCheckedRows headerID true (upsertCheckedRows headerID true rows)
      = upsertCheckedRows headerID true rows := by
  obtain ⟨⟨c0, hc0, hid0⟩, hall⟩ := upsertCheckedRows_checked headerID rows
  generalize upsertCheckedRows headerID true rows = rows1 at hc0 hall
  unfold upsertCheckedRows
  have hany : rows1.any (fun r => r.header_id == headerID) = true := by
    simp only [List.any_eq_true, beq_iff_eq]
    exact ⟨c0, hc0, hid0⟩
  rw [if_pos hany]
  conv_rhs => rw [← List.map_id rows1]
  apply List.map_congr_left
  intro c hc
  by_cases hid : c.header_id = headerID
  · have := hall c hc hid
    cases c
    simp only at this hid
    simp [this, hid]
  · simp [hid]

/-- C11. In a store where `checked_headers.header_id` is unique (the conflict
target of the upsert), after `DripFileRepoRepository.MarkHeaderChecked(h)`
returns nil there is exactly one checked-marker row for `h`, with
`drip_file_repo_checked` true, whether or not `h` had a row before; the marker
rows of the other headers, the model rows and the headers are unchanged,
`header_id` stays unique, and a second `MarkHeaderChecked(h)` leaves the tables
of the first. -/
theorem MarkHeaderChecked_sets_one_marker (db db1 : DB) (headerID : Int)
    (hkey : (db.tables.checked_headers.map (fun c => c.header_id)).Nodup)
    (hok : DripFileRepoRepository.MarkHeaderChecked db headerID = (none, db1)) :
    db1.tables.checked_headers.filter (fun c => c.header_id = headerID)
      = [{ header_id := headerID, drip_file_repo_checked := true }] ∧
    db1.tables.checked_headers.filter (fun c => c.header_id ≠ headerID)
      = db.tables.checked_headers.filter (fun c => c.header_id ≠ headerID) ∧
    db1.tables.drip_file_repo = db.tables.drip_file_repo ∧
    db1.tables.headers = db.tables.headers ∧
    (db1.tables.checked_headers.map (fun c => c.header_id)).Nodup ∧
    (DripFileRepoRepository.MarkHeaderChecked db1 headerID).2.tables = db1.tables := by
  have h1 := MarkHeaderChecked_cases db headerID
  rw [hok] at h1
  rcases h1 with ⟨_, ht⟩ | ⟨hne, _⟩
  · simp only at ht
    refine ⟨?_, ?_, ?_, ?_, ?_, ?_⟩
    · rw [ht]
      exact upsertCheckedRows_filter_self headerID db.tables.checked_headers hkey
    · rw [ht]
      exact upsertCheckedRows_filter_others headerID true db.tables.checked_headers
    · rw [ht]
    · rw [ht]
    · rw [ht]
      exact upsertCheckedRows_nodup headerID true db.tables.checked_headers hkey
    · rcases MarkHeaderChecked_cases db1 headerID with ⟨_, ht2⟩ | ⟨_, ht2⟩
      · rw [ht2, ht]
        simp only
        rw [upsertCheckedRows_idempotent]
      · exact ht2
  · simp at hne

/-- Witness for C11: header 3 of `exampleStore` has a marker row with the flag
false; after `MarkHeaderChecked(3)` its only row is `(3, true)` and the row of
header 2 is as before. -/
theorem MarkHeaderChecked_sets_one_marker_witness :
    (exampleStore.checked_headers.map (fun c => c.header_id)).Nodup ∧
    DripFileRepoRepository.MarkHeaderChecked
        { tables := exampleStore, nodeID := "node", faults := [] } 3
      = (none, { tables := exampleStoreMarked, nodeID := "node", faults := [] }) ∧
    exampleStoreMarked.checked_headers.filter (fun c => c.header_id = 3)
      = [{ header_id := 3, drip_file_repo_checked := true }] ∧
    exampleStoreMarked.checked_headers.filter (fun c => c.header_id ≠ 3)
      = exampleStore.checked_headers.filter (fun c => c.header_id ≠ 3) :=
  ⟨by decide, by decide,
   (MarkHeaderChecked_sets_one_marker
      { tables := exampleStore, nodeID := "node", faults := [] }
      { tables := exampleStoreMarked, nodeID := "node", faults := [] }
      3 (by decide) (by decide)).1,
   (MarkHeaderChecked_sets_one_marker
      { tables := exampleStore, nodeID := "node", faults := [] }
      { tables := exampleStoreMarked, nodeID := "node", faults := [] }
      3 (by decide) (by decide)).2.1⟩

/-! ### `ToModels`: reads in range -/

theorem toModelsLoop_cons_verify_error (deps : PitFileDeps) (ethLog : types.Log)
    (rest : List types.Log) (acc : List PitFileIlkModel) (err : Error)
    (hv : PitFileIlkConverter.verifyLog deps ethLog = some err) :
    PitFileIlkConverter.toModelsLoop deps (ethLog :: rest) acc = some ([], some err) := by
  rw [PitFileIlkConverter.toModelsLoop, hv]

theorem toModelsLoop_total (deps : PitFileDeps) (h0 : 0 ≤ deps.DataItemLength)
    (logs : List types.Log) :
    ∀ acc : List PitFileIlkModel,
      ∃ res, PitFileIlkConverter.toModelsLoop deps logs acc = some res := by
  induction logs with
  | nil =>
      intro acc
      exact ⟨(acc, none), by rw [PitFileIlkConverter.toModelsLoop]⟩
  | cons ethLog rest ih =>
      intro acc
      rcases hv : PitFileIlkConverter.verifyLog deps ethLog with _ | err
      · obtain ⟨topic2, topic3, dataBytes, ht2, ht3, hsl⟩ := verified_reads deps h0 ethLog hv
        rw [PitFileIlkConverter.toModelsLoop]
        simp only [hv, ht2, ht3, hsl]
        rcases hgd : PitFileIlkConverter.getData deps dataBytes (trimNul topic3)
          with ⟨data, _ | e⟩
        · simp only
          rcases hj : deps.jsonMarshal ethLog with e | raw
          · exact ⟨_, rfl⟩
          · exact ih _
        · exact ⟨_, rfl⟩
      · exact ⟨_, toModelsLoop_cons_verify_error deps ethLog rest acc err hv⟩

/-- C13. With `constants.DataItemLength` non-negative, `ToModels` never reads
out of range. For a log on which `verifyLog` returns nil (which then has at
least 4 topics and at least `DataItemLength` data bytes) the reads `Topics[2]`
and `Topics[3]` and the slice `Data[len(Data)-DataItemLength:]` are in bounds
and the slice has exactly `DataItemLength` bytes. For a log on which
`verifyLog` returns an error, `ToModels` returns that error without reading,
whatever the topics and the data. So `ToModels` returns on every list, and on
the empty list it returns no models and no error. -/
theorem ToModels_reads_in_range (deps : PitFileDeps) (h0 : 0 ≤ deps.DataItemLength) :
    (∀ log : types.Log, PitFileIlkConverter.verifyLog deps log = none →
      4 ≤ log.Topics.length ∧ deps.DataItemLength ≤ (log.Data.length : Int) ∧
      ∃ topic2 topic3 dataBytes,
        log.Topics[2]? = some topic2 ∧ log.Topics[3]? = some topic3 ∧
        sliceFrom log.Data ((log.Data.length : Int) - deps.DataItemLength) = some dataBytes ∧
        (dataBytes.length : Int) = deps.DataItemLength) ∧
    (∀ (log : types.Log) (rest : List types.Log) (err : Error),
      PitFileIlkConverter.verifyLog deps log = some err →
      PitFileIlkConverter.ToModels deps (log :: rest) = some ([], some err)) ∧
    (∀ ethLogs : List types.Log, ∃ res, PitFileIlkConverter.ToModels deps ethLogs = some res) ∧
    PitFileIlkConverter.ToModels deps [] = some ([], none) := by
  refine ⟨?_, ?_, ?_, ?_⟩
  · intro log hv
    obtain ⟨ht, hd⟩ := (verifyLog_none_iff deps log).mp hv
    obtain ⟨topic2, topic3, dataBytes, ht2, ht3, hsl⟩ := verified_reads deps h0 log hv
    exact ⟨ht, hd, topic2, topic3, dataBytes, ht2, ht3, hsl, (sliceFrom_spec _ _ _ hsl).2⟩
  · intro log rest err hv
    exact toModelsLoop_cons_verify_error deps log rest [] err hv
  · intro ethLogs
    exact toModelsLoop_total deps h0 ethLogs []
  · rfl

/-- Witness for C13: with a payload of 32 bytes, a list that holds a log with
no topic and no data at all is answered with the error of `verifyLog`. -/
theorem ToModels_reads_in_range_witness :
    (0 : Int) ≤ exampleDeps.DataItemLength ∧
    PitFileIlkConverter.verifyLog exampleDeps ⟨[], [], 0, 0⟩ = some "log missing topics" ∧
    PitFileIlkConverter.ToModels exampleDeps [⟨[], [], 0, 0⟩, exampleSpotLog]
      = some ([], some "log missing topics") :=
  ⟨by decide, by rfl,
   (ToModels_reads_in_range exampleDeps (by decide)).2.1 ⟨[], [], 0, 0⟩ [exampleSpotLog]
     "log missing topics" (by rfl)⟩

/-! ### `GetStorageAt` -/

theorem headerByHash_some (store : QueryBackend.Store) (blockHash : Nat)
    (h : QueryBackend.Header) (hfind : QueryBackend.headerByHash store blockHash = some h) :
    h ∈ store.headers ∧ h.hash = blockHash := by
  unfold QueryBackend.headerByHash at hfind
  have hp := List.find?_some hfind
  simp only [beq_iff_eq] at hp
  exact ⟨List.mem_of_find?_eq_some hfind, hp⟩

theorem recordIn_some (store : QueryBackend.Store) (address slotKey blockHash : Nat)
    (r : QueryBackend.StorageRecord)
    (h : QueryBackend.recordIn store address slotKey blockHash = some r) :
    r ∈ store.storage ∧ r.address = address ∧ r.slotKey = slotKey ∧
      r.blockHash = blockHash := by
  unfold QueryBackend.recordIn at h
  have hmem := List.mem_of_find?_eq_some h
  have hp := List.find?_some h
  simp only [Bool.and_eq_true, beq_iff_eq] at hp
  exact ⟨hmem, hp.1.1, hp.1.2, hp.2⟩

theorem recordIn_none (store : QueryBackend.Store) (address slotKey blockHash : Nat)
    (h : ∀ r ∈ store.storage, r.address = address → r.slotKey = slotKey →
      r.blockHash ≠ blockHash) :
    QueryBackend.recordIn store address slotKey blockHash = none := by
  unfold QueryBackend.recordIn
  rw [List.find?_eq_none]
  intro r hr
  simp only [Bool.and_eq_true, beq_iff_eq, not_and]
  intro hkey
  exact h r hr hkey.1 hkey.2

theorem recordIn_isSome (store : QueryBackend.Store) (address slotKey blockHash : Nat)
    (r : QueryBackend.StorageRecord) (hr : r ∈ store.storage) (ha : r.address = address)
    (hs : r.slotKey = slotKey) (hh : r.blockHash = blockHash) :
    ∃ r', QueryBackend.recordIn store address slotKey blockHash = some r' := by
  rcases hrec : QueryBackend.recordIn store address slotKey blockHash with _ | r'
  · unfold QueryBackend.recordIn at hrec
    rw [List.find?_eq_none] at hrec
    have := hrec r hr
    simp [ha, hs, hh] at this
  · exact ⟨r', rfl⟩

/-- A block on the chain of a stored header is stored and not above it. -/
theorem onChain_le (store : QueryBackend.Store)
    (hwf : ∀ h ∈ store.headers, ∀ p ∈ QueryBackend.parentOf store h,
      p.blockNumber + 1 = h.blockNumber)
    (header b : QueryBackend.Header) (hmem : header ∈ store.headers)
    (hchain : QueryBackend.OnChain store header b) :
    b ∈ store.headers ∧ b.blockNumber ≤ header.blockNumber := by
  unfold QueryBackend.OnChain at hchain
  induction hchain with
  | refl => exact ⟨hmem, le_refl _⟩
  | @tail c d _ hstep ih =>
      obtain ⟨hc, hle⟩ := ih
      have hd := (headerByHash_some store _ d hstep).1
      have := hwf c hc d hstep
      exact ⟨hd, by omega⟩

/-- A block on the chain of a header is the header or on the chain of its
parent. -/
theorem onChain_cases (store : QueryBackend.Store) (header b : QueryBackend.Header)
    (hchain : QueryBackend.OnChain store header b) :
    header = b ∨ ∃ p, QueryBackend.parentOf store header = some p ∧
      QueryBackend.OnChain store p b :=
  Relation.ReflTransGen.cases_head hchain

theorem onChain_of_parent (store : QueryBackend.Store) (header p b : QueryBackend.Header)
    (hp : QueryBackend.parentOf store header = some p)
    (hchain : QueryBackend.OnChain store p b) : QueryBackend.OnChain store header b :=
  Relation.ReflTransGen.head hp hchain

/-- A record found at the target header itself is the most recent one on its
chain. -/
theorem found_at_header (store : QueryBackend.Store)
    (hwf : ∀ h ∈ store.headers, ∀ p ∈ QueryBackend.parentOf store h,
      p.blockNumber + 1 = h.blockNumber)
    (address slotKey : Nat) (header b : QueryBackend.Header)
    (r0 : QueryBackend.StorageRecord) (hmem : header ∈ store.headers)
    (hrec : QueryBackend.recordIn store address slotKey header.hash = some r0)
    (hchain : QueryBackend.OnChain store header b)
    (hmax : ∀ (b2 : QueryBackend.Header) (r2 : QueryBackend.StorageRecord),
      QueryBackend.OnChain store header b2 → r2 ∈ store.storage → r2.address = address →
      r2.slotKey = slotKey → r2.blockHash = b2.hash → b2.blockNumber ≤ b.blockNumber) :
    r0.blockHash = b.hash := by
  obtain ⟨hr0, ha0, hs0, hh0⟩ := recordIn_some store address slotKey header.hash r0 hrec
  have hle := hmax header r0 Relation.ReflTransGen.refl hr0 ha0 hs0 hh0
  rcases onChain_cases store header b hchain with heq | ⟨p, hp, hpchain⟩
  · rw [← heq]
    exact hh0
  · have hpm := (headerByHash_some store _ p hp).1
    have h1 := hwf header hmem p hp
    have h2 := (onChain_le store hwf p b hpm hpchain).2
    omega

theorem walkBack_found (store : QueryBackend.Store)
    (hwf : ∀ h ∈ store.headers, ∀ p ∈ QueryBackend.parentOf store h,
      p.blockNumber + 1 = h.blockNumber)
    (address slotKey : Nat) :
    ∀ (depth : Nat) (header : QueryBackend.Header), header ∈ store.headers →
      header.blockNumber ≤ depth →
      ∀ (b : QueryBackend.Header) (r : QueryBackend.StorageRecord),
        QueryBackend.OnChain store header b → r ∈ store.storage → r.address = address →
        r.slotKey = slotKey → r.blockHash = b.hash →
        (∀ (b2 : QueryBackend.Header) (r2 : QueryBackend.StorageRecord),
          QueryBackend.OnChain store header b2 → r2 ∈ store.storage → r2.address = address →
          r2.slotKey = slotKey → r2.blockHash = b2.hash → b2.blockNumber ≤ b.blockNumber) →
        ∃ r' ∈ store.storage, r'.address = address ∧ r'.slotKey = slotKey ∧
          r'.blockHash = b.hash ∧
          QueryBackend.walkBack store address slotKey depth header = some r'.value := by
  intro depth
  induction depth with
  | zero =>
      intro header hmem hdepth b r hchain hr ha hs hh hmax
      rcases hrec : QueryBackend.recordIn store address slotKey header.hash with _ | r0
      · exfalso
        rcases onChain_cases store header b hchain with heq | ⟨p, hp, _⟩
        · rw [← heq] at hh
          obtain ⟨r', hr'⟩ := recordIn_isSome store address slotKey header.hash r hr ha hs hh
          rw [hrec] at hr'
          cases hr'
        · have := hwf header hmem p hp
          omega
      · obtain ⟨hr0, ha0, hs0, _⟩ := recordIn_some store address slotKey header.hash r0 hrec
        refine ⟨r0, hr0, ha0, hs0,
          found_at_header store hwf address slotKey header b r0 hmem hrec hchain hmax, ?_⟩
        rw [QueryBackend.walkBack, hrec]
  | succ d ih =>
      intro header hmem hdepth b r hchain hr ha hs hh hmax
      rcases hrec : QueryBackend.recordIn store address slotKey header.hash with _ | r0
      · rcases onChain_cases store header b hchain with heq | ⟨p, hp, hpchain⟩
        · exfalso
          rw [← heq] at hh
          obtain ⟨r', hr'⟩ := recordIn_isSome store address slotKey header.hash r hr ha hs hh
          rw [hrec] at hr'
          cases hr'
        · have hpm := (headerByHash_some store _ p hp).1
          have hnum := hwf header hmem p hp
          obtain ⟨r', hr', ha', hs', hh', hw⟩ := ih p hpm (by omega) b r hpchain hr ha hs hh
            (fun b2 r2 hc2 => hmax b2 r2 (onChain_of_parent store header p b2 hp hc2))
          refine ⟨r', hr', ha', hs', hh', ?_⟩
          rw [QueryBackend.walkBack, hrec, hp]
          exact hw
      · obtain ⟨hr0, ha0, hs0, _⟩ := recordIn_some store address slotKey header.hash r0 hrec
        refine ⟨r0, hr0, ha0, hs0,
          found_at_header store hwf address slotKey header b r0 hmem hrec hchain hmax, ?_⟩
        rw [QueryBackend.walkBack, hrec]

theorem walkBack_absent (store : QueryBackend.Store)
    (hwf : ∀ h ∈ store.headers, ∀ p ∈ QueryBackend.parentOf store h,
      p.blockNumber + 1 = h.blockNumber)
    (address slotKey : Nat) :
    ∀ (depth : Nat) (header : QueryBackend.Header), header ∈ store.headers →
      header.blockNumber ≤ depth →
      (∀ (b : QueryBackend.Header) (r : QueryBackend.StorageRecord),
        QueryBackend.OnChain store header b → r ∈ store.storage → r.address = address →
        r.slotKey = slotKey → r.blockHash ≠ b.hash) →
      QueryBackend.walkBack store address slotKey depth header = some 0 := by
  intro depth
  induction depth with
  | zero =>
      intro header hmem hdepth hnone
      have hrec : QueryBackend.recordIn store address slotKey header.hash = none :=
        recordIn_none store address slotKey header.hash
          (fun r hr ha hs => hnone header r Relation.ReflTransGen.refl hr ha hs)
      rcases hp : QueryBackend.parentOf store header with _ | p
      · rw [QueryBackend.walkBack, hrec, hp]
      · have := hwf header hmem p hp
        omega
  | succ d ih =>
      intro header hmem hdepth hnone
      have hrec : QueryBackend.recordIn store address slotKey header.hash = none :=
        recordIn_none store address slotKey header.hash
          (fun r hr ha hs => hnone header r Relation.ReflTransGen.refl hr ha hs)
      rcases hp : QueryBackend.parentOf store header with _ | p
      · rw [QueryBackend.walkBack, hrec, hp]
      · have hpm := (headerByHash_some store _ p hp).1
        have hnum := hwf header hmem p hp
        rw [QueryBackend.walkBack, hrec, hp]
        exact ih p hpm (by omega)
          (fun b r hc => hnone b r (onChain_of_parent store header p b hp hc))

/-- C12. In a store whose parent links go one block down, for a stored header
at block number `n` and a maximum depth that covers `n`,
`GetStorageAt(blockHash, address, slotKey)` returns, with no error, the value
of the most recent storage record for `(address, slotKey)` at or before block
`n`: a record observed at a block of the header's chain, no block of the chain
above it holding a record of the slot; and it returns the zero value, with no
error, when no block of the chain holds a record of the slot. The blocks of
the chain are at or before `n`. -/
theorem GetStorageAt_most_recent_on_chain (store : QueryBackend.Store)
    (maxDepth blockHash address slotKey : Nat) (header : QueryBackend.Header)
    (hheader : QueryBackend.headerByHash store blockHash = some header)
    (hwf : ∀ h ∈ store.headers, ∀ p ∈ QueryBackend.parentOf store h,
      p.blockNumber + 1 = h.blockNumber)
    (hdepth : header.blockNumber ≤ maxDepth) :
    (∀ b, QueryBackend.OnChain store header b → b.blockNumber ≤ header.blockNumber) ∧
    (∀ (b : QueryBackend.Header) (r : QueryBackend.StorageRecord),
      QueryBackend.OnChain store header b → r ∈ store.storage → r.address = address →
      r.slotKey = slotKey → r.blockHash = b.hash →
      (∀ (b2 : QueryBackend.Header) (r2 : QueryBackend.StorageRecord),
        QueryBackend.OnChain store header b2 → r2 ∈ store.storage → r2.address = address →
        r2.slotKey = slotKey → r2.blockHash = b2.hash → b2.blockNumber ≤ b.blockNumber) →
      ∃ r' ∈ store.storage, r'.address = address ∧ r'.slotKey = slotKey ∧
        r'.blockHash = b.hash ∧
        QueryBackend.GetStorageAt store maxDepth blockHash address slotKey
          = some (.ok r'.value)) ∧
    ((∀ (b : QueryBackend.Header) (r : QueryBackend.StorageRecord),
      QueryBackend.OnChain store header b → r ∈ store.storage → r.address = address →
      r.slotKey = slotKey → r.blockHash ≠ b.hash) →
      QueryBackend.GetStorageAt store maxDepth blockHash address slotKey = some (.ok 0)) := by
  have hmem := (headerByHash_some store blockHash header hheader).1
  unfold QueryBackend.GetStorageAt
  rw [hheader]
  simp only
  refine ⟨fun b hb => (onChain_le store hwf header b hmem hb).2, ?_, ?_⟩
  · intro b r hchain hr ha hs hh hmax
    obtain ⟨r', hr', ha', hs', hh', hw⟩ :=
      walkBack_found store hwf address slotKey maxDepth header hmem hdepth b r hchain hr ha hs
        hh hmax
    exact ⟨r', hr', ha', hs', hh', by rw [hw]; rfl⟩
  · intro hnone
    rw [walkBack_absent store hwf address slotKey maxDepth header hmem hdepth hnone]
    rfl

/-- Witness for C12: on `exampleChain` with a maximum depth of 8 the slot reads
as zero at blocks 0 and 1, as 1 at block 2 and as 3 at block 3, a slot never
written reads as zero, and at block 6 the value is that of the record of
block 3, not that of its sibling. -/
theorem GetStorageAt_most_recent_on_chain_witness :
    QueryBackend.headerByHash exampleChain 106 = some ⟨7, 6, 106, 105, "node"⟩ ∧
    (∀ h ∈ exampleChain.headers, ∀ p ∈ QueryBackend.parentOf exampleChain h,
      p.blockNumber + 1 = h.blockNumber) ∧
    QueryBackend.GetStorageAt exampleChain 8 100 7 1 = some (.ok 0) ∧
    QueryBackend.GetStorageAt exampleChain 8 101 7 1 = some (.ok 0) ∧
    QueryBackend.GetStorageAt exampleChain 8 102 7 1 = some (.ok 1) ∧
    QueryBackend.GetStorageAt exampleChain 8 103 7 1 = some (.ok 3) ∧
    QueryBackend.GetStorageAt exampleChain 8 106 7 1 = some (.ok 3) ∧
    QueryBackend.GetStorageAt exampleChain 8 103 7 99 = some (.ok 0) ∧
    (∃ r' ∈ exampleChain.storage, r'.address = 7 ∧ r'.slotKey = 1 ∧
      r'.blockHash = (⟨4, 3, 103, 102, "node"⟩ : QueryBackend.Header).hash ∧
      QueryBackend.GetStorageAt exampleChain 8 106 7 1 = some (.ok r'.value)) :=
  ⟨by rfl, by decide, by rfl, by rfl, by rfl, by rfl, by rfl, by rfl,
   (GetStorageAt_most_recent_on_chain exampleChain 8 106 7 1 ⟨7, 6, 106, 105, "node"⟩
      (by rfl) (by decide) (by decide)).2.1 ⟨4, 3, 103, 102, "node"⟩ ⟨7, 1, 3, 103⟩
      (onChain_of_parent exampleChain _ ⟨6, 5, 105, 104, "node"⟩ _ (by rfl)
        (onChain_of_parent exampleChain _ ⟨5, 4, 104, 103, "node"⟩ _ (by rfl)
          (onChain_of_parent exampleChain _ ⟨4, 3, 103, 102, "node"⟩ _ (by rfl)
            Relation.ReflTransGen.refl)))
      (by decide) rfl rfl rfl
      (fun b2 r2 hc2 hr2 _ _ hh2 =>
        (show ∀ b ∈ exampleChain.headers, ∀ r ∈ exampleChain.storage,
            r.blockHash = b.hash → b.blockNumber ≤ 3 by decide)
          b2 (onChain_le exampleChain (by decide) _ b2 (by decide) hc2).1 r2 hr2 hh2)⟩
